import Mathlib

/-!
# MAX7219_CH32: a shallow embedding of the display driver

The driver of `src/MAX7219_CH32.cpp` is embedded as pure functions over an
explicit driver state.  The state holds the private configuration fields of
the C++ class together with `bus`, the list of `(address, data)` commands
that `sendCommand` has shifted out so far, oldest first.  The contents of a
chip register are read back from that list with `readReg`.

Machine integers are natural numbers or integers with explicit wrap-around:
`uint8_t` values are reduced modulo 256 wherever the C++ code converts an
`int` expression to `uint8_t`, and `long` is the 32-bit two's-complement type
of the CH32V003 target.
-/

set_option autoImplicit false

namespace MAX7219

/-! ## Constants of `MAX7219_CH32.h` -/

def MAX7219_MODE_DECODE : Nat := 0xFF
def MAX7219_MODE_NO_DECODE : Nat := 0x00

def MAX7219_ALIGN_LEFT : Nat := 0
def MAX7219_ALIGN_RIGHT : Nat := 1
def MAX7219_ALIGN_CENTER : Nat := 2

def MAX7219_REG_NOOP : Nat := 0x00
def MAX7219_REG_DIGIT0 : Nat := 0x01
def MAX7219_REG_DECODE : Nat := 0x09
def MAX7219_REG_INTENSITY : Nat := 0x0A
def MAX7219_REG_SCANLIMIT : Nat := 0x0B
def MAX7219_REG_SHUTDOWN : Nat := 0x0C
def MAX7219_REG_DISPLAYTEST : Nat := 0x0F

/-! ## Segment pattern tables of `MAX7219_CH32.cpp` -/

def SEGMENT_DIGITS : List Nat :=
  [0b01111110, 0b00110000, 0b01101101, 0b01111001, 0b00110011,
   0b01011011, 0b01011111, 0b01110000, 0b01111111, 0b01111011]

def SEGMENT_LETTERS : List Nat :=
  [0b01110111, 0b00011111, 0b01001110, 0b00111101, 0b01001111, 0b01000111,
   0b01011110, 0b00110111, 0b00000110, 0b00111100, 0b01010111, 0b00001110,
   0b01010100, 0b00010101, 0b01111110, 0b01100111, 0b01110011, 0b00000101,
   0b01011011, 0b00001111, 0b00111110, 0b00011100, 0b00101010, 0b00110111,
   0b00111011, 0b01101101]

def SEGMENT_HEX : List Nat :=
  [0b01110111, 0b00011111, 0b01001110, 0b00111101, 0b01001111, 0b01000111]

def SEGMENT_BLANK : Nat := 0b00000000
def SEGMENT_MINUS : Nat := 0b00000001
def SEGMENT_DOT : Nat := 0b10000000

/-! ## Machine arithmetic -/

/-- Conversion of an `int` expression to `uint8_t`: reduction modulo 256. -/
def toUint8 (x : Int) : Nat := (x % 256).toNat

/-- Conversion of an integer to the 32-bit two's-complement `long` of the
target: the result lies in `[-2^31, 2^31)`. -/
def toLong (x : Int) : Int := (x + 2147483648) % 4294967296 - 2147483648

/-- Modelled from the spec: the Arduino core macro `constrain(amt, low, high)`
is not part of the sources; the spec says out-of-range inputs are clamped to
the range, which is `amt < low ? low : (amt > high ? high : amt)`. -/
def constrain (amt low high : Nat) : Nat :=
  if amt < low then low else if amt > high then high else amt

/-! ## Driver state -/

/-- The private fields of class `MAX7219`, and the commands shifted out to
the chip so far (oldest first). -/
structure Driver where
  dinPin : Nat
  clkPin : Nat
  csPin : Nat
  numDigits : Nat
  mode : Nat
  alignment : Nat
  brightness : Nat
  bus : List (Nat × Nat)
  deriving DecidableEq, Repr

/-- The data byte last written to register `address`, if any command on the
bus addressed it. -/
def readReg (bus : List (Nat × Nat)) (address : Nat) : Option Nat :=
  bus.foldl (fun r c => if c.1 = address then some c.2 else r) none

/-! ## Internal helper functions -/

/-- Source function `MAX7219::sendCommand`: one 16-bit frame, address byte then data byte.
Both parameters are `uint8_t`. -/
def sendCommand (d : Driver) (address data : Nat) : Driver :=
  { d with bus := d.bus ++ [(address % 256, data % 256)] }

/-- Source function `MAX7219::getPhysicalPosition`: the argument and the result are
`uint8_t`, the subtraction is done in `int`. -/
def getPhysicalPosition (d : Driver) (logicalPosition : Nat) : Nat :=
  if d.alignment = MAX7219_ALIGN_LEFT then
    toUint8 ((d.numDigits : Int) - 1 - (logicalPosition : Int))
  else if d.alignment = MAX7219_ALIGN_RIGHT then
    logicalPosition
  else
    toUint8 ((d.numDigits : Int) - 1 - (logicalPosition : Int))

/-- Source function `MAX7219::charToSegments`: a character is given by its code.  Codes above
127 fail every range test whether `char` is signed or not. -/
def charToSegments (c : Nat) : Nat :=
  if '0'.toNat ≤ c ∧ c ≤ '9'.toNat then SEGMENT_DIGITS.getD (c - '0'.toNat) 0
  else if 'A'.toNat ≤ c ∧ c ≤ 'Z'.toNat then SEGMENT_LETTERS.getD (c - 'A'.toNat) 0
  else if 'a'.toNat ≤ c ∧ c ≤ 'z'.toNat then SEGMENT_LETTERS.getD (c - 'a'.toNat) 0
  else if c = '-'.toNat then SEGMENT_MINUS
  else if c = ' '.toNat then SEGMENT_BLANK
  else SEGMENT_BLANK

/-- Source function `MAX7219::digitToSegments`. -/
def digitToSegments (digit : Nat) : Nat :=
  if digit ≤ 9 then SEGMENT_DIGITS.getD digit 0 else SEGMENT_BLANK

/-! ## Constructor and configuration functions -/

/-- The constructor `MAX7219::MAX7219(dinPin, clkPin, csPin, numDigits)`;
nothing has been sent to the chip yet. -/
def new (dinPin clkPin csPin numDigits : Nat) : Driver :=
  { dinPin := dinPin
    clkPin := clkPin
    csPin := csPin
    numDigits := constrain numDigits 1 8
    mode := MAX7219_MODE_DECODE
    alignment := MAX7219_ALIGN_RIGHT
    brightness := 8
    bus := [] }

/-- Source function `MAX7219::getMode`. -/
def getMode (d : Driver) : Nat := d.mode

/-- Source function `MAX7219::setAlignment`. -/
def setAlignment (d : Driver) (alignment : Nat) : Driver :=
  { d with alignment := alignment }

/-- Source function `MAX7219::getAlignment`. -/
def getAlignment (d : Driver) : Nat := d.alignment

/-! ## Display functions -/

/-- Source function `MAX7219::clear`: one blank write per digit register. -/
def clear (d : Driver) : Driver :=
  (List.range d.numDigits).foldl
    (fun s i =>
      if s.mode = MAX7219_MODE_DECODE then
        sendCommand s (MAX7219_REG_DIGIT0 + i) 0x0F
      else
        sendCommand s (MAX7219_REG_DIGIT0 + i) 0x00)
    d

/-- Source function `MAX7219::setMode`. -/
def setMode (d : Driver) (mode : Nat) : Driver :=
  let d := { d with mode := mode }
  let d := sendCommand d MAX7219_REG_DECODE mode
  clear d

/-- Source function `MAX7219::setBrightness`. -/
def setBrightness (d : Driver) (level : Nat) : Driver :=
  let d := { d with brightness := constrain level 0 15 }
  sendCommand d MAX7219_REG_INTENSITY d.brightness

/-- Source function `MAX7219::setPower`. -/
def setPower (d : Driver) (powerOn : Bool) : Driver :=
  sendCommand d MAX7219_REG_SHUTDOWN (if powerOn then 0x01 else 0x00)

/-- The Arduino core function `delay(ms)`: time passes, the driver state and
the bus are not touched. -/
def delay (d : Driver) (_ms : Nat) : Driver := d

/-- Source function `MAX7219::begin(uint8_t mode)`.  The calls that come
first, `pinMode` and `digitalWrite` on the three pins and `delay(10)`,
configure the pins and send no frame; the bus traffic starts with the
shutdown command.  The scan limit `_numDigits - 1` is computed in `int`. -/
def begin (d : Driver) (mode : Nat) : Driver :=
  let d := delay d 10
  let d := { d with mode := mode }
  let d := sendCommand d MAX7219_REG_SHUTDOWN 0x01
  let d := sendCommand d MAX7219_REG_SCANLIMIT (toUint8 ((d.numDigits : Int) - 1))
  let d := sendCommand d MAX7219_REG_DECODE d.mode
  let d := sendCommand d MAX7219_REG_INTENSITY d.brightness
  let d := sendCommand d MAX7219_REG_DISPLAYTEST 0x00
  clear d

/-- Source function `MAX7219::displayAt(uint8_t position, uint8_t value, bool dp)`. -/
def displayAt (d : Driver) (position value : Nat) (dp : Bool) : Driver :=
  if position ≥ d.numDigits then d
  else
    let physPos := getPhysicalPosition d position
    if d.mode = MAX7219_MODE_DECODE then
      let data := constrain value 0 9
      let data := if dp then data ||| 0x80 else data
      sendCommand d (MAX7219_REG_DIGIT0 + physPos) data
    else
      let segments := if value ≤ 9 then digitToSegments value else SEGMENT_BLANK
      let segments := if dp then segments ||| SEGMENT_DOT else segments
      sendCommand d (MAX7219_REG_DIGIT0 + physPos) segments

/-- Source function `MAX7219::displayAt(uint8_t position, char character, bool dp)`. -/
def displayAtChar (d : Driver) (position character : Nat) (dp : Bool) : Driver :=
  if position ≥ d.numDigits then d
  else
    let physPos := getPhysicalPosition d position
    if d.mode = MAX7219_MODE_DECODE then
      if '0'.toNat ≤ character ∧ character ≤ '9'.toNat then
        let data := character - '0'.toNat
        let data := if dp then data ||| 0x80 else data
        sendCommand d (MAX7219_REG_DIGIT0 + physPos) data
      else if character = '-'.toNat then
        sendCommand d (MAX7219_REG_DIGIT0 + physPos) 0x0A
      else
        sendCommand d (MAX7219_REG_DIGIT0 + physPos) 0x0F
    else
      let segments := charToSegments character
      let segments := if dp then segments ||| SEGMENT_DOT else segments
      sendCommand d (MAX7219_REG_DIGIT0 + physPos) segments

/-! ## Integer rendering -/

/-- The digit-collection loop of `displayNumberInternal` and
`displayFloatInternal`, `while (number > 0 && numDigits < 8)`, least
significant digit first.  The first argument is the number of free slots of
the array `digits[8]`, that is `8 - numDigits`. -/
def collectDigits : Nat → Int → List Nat → List Nat
  | 0, _, digits => digits
  | room + 1, number, digits =>
    if number > 0 then
      collectDigits room (Int.tdiv number 10) (digits ++ [(Int.tmod number 10).toNat])
    else digits

/-- The start position computed from the alignment (a `uint8_t`); `numDigits`
is the number of collected digits. -/
def startPosOf (d : Driver) (numDigits : Nat) : Nat :=
  if d.alignment = MAX7219_ALIGN_RIGHT then 0
  else if d.alignment = MAX7219_ALIGN_CENTER then
    toUint8 (Int.tdiv ((d.numDigits : Int) - (numDigits : Int)) 2)
  else 0

/-- The logical position `pos` (a `uint8_t`) of the digit with index `i` in
the rendering loops. -/
def digitPos (d : Driver) (startPos numDigits i : Nat) : Nat :=
  if d.alignment = MAX7219_ALIGN_RIGHT then toUint8 (i : Int)
  else if d.alignment = MAX7219_ALIGN_CENTER then
    toUint8 ((startPos : Int) + ((numDigits : Int) - 1 - (i : Int)))
  else toUint8 ((numDigits : Int) - 1 - (i : Int))

/-- One iteration of the rendering loop of `displayNumberInternal`.  The loop
state is the driver, `hasShownDigit` and `lastPos`. -/
def numberStep (leadingZeros : Bool) (digits : List Nat) (startPos : Nat)
    (s : Driver × Bool × Nat) (i : Nat) : Driver × Bool × Nat :=
  let d := s.1
  let hasShownDigit := s.2.1
  let pos := digitPos d startPos digits.length i
  if !leadingZeros && !hasShownDigit && digits.getD i 0 == 0 && decide (i > 0) then
    let physPos := getPhysicalPosition d pos
    if d.mode = MAX7219_MODE_DECODE then
      (sendCommand d (MAX7219_REG_DIGIT0 + physPos) 0x0F, hasShownDigit, s.2.2)
    else
      (sendCommand d (MAX7219_REG_DIGIT0 + physPos) SEGMENT_BLANK, hasShownDigit, s.2.2)
  else
    (displayAt d pos (digits.getD i 0) false, true, pos)

/-- The position `leftmostPos` (a `uint8_t`) chosen for the minus sign. -/
def leftmostPosOf (d : Driver) (startPos : Nat) : Nat :=
  if d.alignment = MAX7219_ALIGN_LEFT then 0
  else if d.alignment = MAX7219_ALIGN_CENTER then
    (if startPos > 0 then toUint8 ((startPos : Int) - 1) else 0)
  else toUint8 ((d.numDigits : Int) - 1)

/-- The final block of both rendering functions: the minus sign. -/
def showSign (d : Driver) (negative hasShownDigit : Bool) (startPos lastPos : Nat) : Driver :=
  if negative && hasShownDigit then
    let leftmostPos := leftmostPosOf d startPos
    if leftmostPos ≠ lastPos ∧ leftmostPos < d.numDigits then
      displayAtChar d leftmostPos '-'.toNat false
    else d
  else d

/-- Source function `MAX7219::displayNumberInternal(long number, bool leadingZeros)`.  The
loop `for (int i = numDigits - 1; i >= 0; i--)` runs over the indices of the
collected digits, highest first. -/
def displayNumberInternal (d : Driver) (number : Int) (leadingZeros : Bool) : Driver :=
  let negative := decide (number < 0)
  let number := if negative then toLong (-number) else number
  let d := clear d
  let digits := if number = 0 then [0] else collectDigits 8 number []
  let startPos := startPosOf d digits.length
  let s := (List.range digits.length).reverse.foldl
    (numberStep leadingZeros digits startPos) (d, false, 0)
  showSign s.1 negative s.2.1 startPos s.2.2

/-- Source function `MAX7219::display(long number)`. -/
def display (d : Driver) (number : Int) : Driver :=
  displayNumberInternal d number false

/-! ## Fractional rendering -/

/-- One iteration of the rendering loop of `displayFloatInternal`. -/
def floatStep (digits : List Nat) (startPos decimals : Nat)
    (s : Driver × Bool × Nat) (i : Nat) : Driver × Bool × Nat :=
  let d := s.1
  let pos := digitPos d startPos digits.length i
  let showDP := decide ((digits.length : Int) - 1 - (i : Int) = (decimals : Int))
  (displayAt d pos (digits.getD i 0) showDP, true, pos)

/-- Source function `MAX7219::displayFloatInternal(double number, uint8_t decimals)`.  The
floating-point argument is represented by `scaled`, which gives for a
multiplier `m` the `long` value of `(long)(number * m)`; everything after
that conversion is integer code. -/
def displayFloatInternal (d : Driver) (scaled : Int → Int) (decimals : Nat) : Driver :=
  let decimals := if decimals ≥ d.numDigits then toUint8 ((d.numDigits : Int) - 1) else decimals
  let d := clear d
  let multiplier := (List.range decimals).foldl (fun (m : Int) _ => toLong (m * 10)) 1
  let intValue := scaled multiplier
  let negative := decide (intValue < 0)
  let intValue := if negative then toLong (-intValue) else intValue
  let digits := if intValue = 0 then [0] else collectDigits 8 intValue []
  let startPos := startPosOf d digits.length
  let s := (List.range digits.length).reverse.foldl
    (floatStep digits startPos decimals) (d, false, 0)
  showSign s.1 negative s.2.1 startPos s.2.2

/-- Source function `MAX7219::display(double number, uint8_t decimals)`, which passes
`(float)number` on; that conversion is part of `scaled`. -/
def displayDouble (d : Driver) (scaled : Int → Int) (decimals : Nat) : Driver :=
  displayFloatInternal d scaled decimals

/-! ## Text rendering -/

/-- Source function `MAX7219::displayTextInternal(const char* text)`: `text` is the list of
the character codes before the terminating zero, `text[i]` is
`text.getD i 0`. -/
def displayTextInternal (d : Driver) (text : List Nat) : Driver :=
  let len := text.length
  let d := clear d
  if d.alignment = MAX7219_ALIGN_RIGHT then
    if len ≤ d.numDigits then
      (List.range (min len d.numDigits)).foldl
        (fun (s : Driver) (i : Nat) => displayAtChar s (toUint8 ((len : Int) - 1 - (i : Int))) (text.getD i 0) false) d
    else
      let textStartIdx := len - d.numDigits
      (List.range d.numDigits).foldl
        (fun (s : Driver) (i : Nat) => displayAtChar s (toUint8 ((d.numDigits : Int) - 1 - (i : Int)))
          (text.getD (textStartIdx + i) 0) false) d
  else if d.alignment = MAX7219_ALIGN_CENTER then
    if len ≤ d.numDigits then
      let logicalStartPos := (d.numDigits - len) / 2
      (List.range (min len d.numDigits)).foldl
        (fun (s : Driver) (i : Nat) => displayAtChar s (toUint8 ((logicalStartPos : Int) + (i : Int)))
          (text.getD (0 + i) 0) false) d
    else
      let textStartIdx := len - d.numDigits
      (List.range d.numDigits).foldl
        (fun (s : Driver) (i : Nat) => displayAtChar s (toUint8 ((0 : Int) + (i : Int)))
          (text.getD (textStartIdx + i) 0) false) d
  else
    (List.range (min d.numDigits len)).foldl
      (fun (s : Driver) (i : Nat) => displayAtChar s (toUint8 ((0 : Int) + (i : Int))) (text.getD (0 + i) 0) false) d

/-- Source function `MAX7219::display(const char* text)`.  The C library function `atol` is
taken as a parameter. -/
def displayText (atol : List Nat → Int) (d : Driver) (text : List Nat) : Driver :=
  if d.mode = MAX7219_MODE_DECODE then
    displayNumberInternal d (atol text) false
  else
    displayTextInternal d text

/-! ## Special format functions -/

/-- The start position of `displayTime` for a field of `width` digits. -/
def timeStartPos (d : Driver) (width : Nat) : Nat :=
  if d.alignment = MAX7219_ALIGN_LEFT then 0
  else if d.alignment = MAX7219_ALIGN_CENTER then
    toUint8 (Int.tdiv ((d.numDigits : Int) - (width : Int)) 2)
  else toUint8 ((d.numDigits : Int) - (width : Int))

/-- Source function `MAX7219::displayTime(uint8_t hours, uint8_t minutes)`. -/
def displayTime (d : Driver) (hours minutes : Nat) : Driver :=
  if d.numDigits < 4 then d
  else
    let hours := constrain hours 0 99
    let minutes := constrain minutes 0 59
    let startPos := timeStartPos d 4
    let d := displayAt d (toUint8 ((startPos : Int) + 0)) (hours / 10) false
    let d := displayAt d (toUint8 ((startPos : Int) + 1)) (hours % 10) true
    let d := displayAt d (toUint8 ((startPos : Int) + 2)) (minutes / 10) false
    displayAt d (toUint8 ((startPos : Int) + 3)) (minutes % 10) false

/-- Source function `MAX7219::displayTime(uint8_t hours, uint8_t minutes, uint8_t seconds)`. -/
def displayTimeSeconds (d : Driver) (hours minutes seconds : Nat) : Driver :=
  if d.numDigits < 6 then d
  else
    let hours := constrain hours 0 99
    let minutes := constrain minutes 0 59
    let seconds := constrain seconds 0 59
    let startPos := timeStartPos d 6
    let d := displayAt d (toUint8 ((startPos : Int) + 0)) (hours / 10) false
    let d := displayAt d (toUint8 ((startPos : Int) + 1)) (hours % 10) true
    let d := displayAt d (toUint8 ((startPos : Int) + 2)) (minutes / 10) false
    let d := displayAt d (toUint8 ((startPos : Int) + 3)) (minutes % 10) true
    let d := displayAt d (toUint8 ((startPos : Int) + 4)) (seconds / 10) false
    displayAt d (toUint8 ((startPos : Int) + 5)) (seconds % 10) false

/-- One iteration and the rest of the loop of `displayHex`,
`for (int i = _numDigits - 1; i >= 0; i--)`: the first argument is `i + 1`.
When the remaining value is zero and `i > 0`, the inner loop blanks the
positions `i - 1 .. 0` and the outer loop is left by `break`. -/
def hexLoop : Nat → Driver → Nat → Driver
  | 0, d, _ => d
  | i + 1, d, value =>
    let digit := value &&& 0xF
    let physPos := getPhysicalPosition d (toUint8 (i : Int))
    let d :=
      if digit < 10 then
        sendCommand d (MAX7219_REG_DIGIT0 + physPos) (SEGMENT_DIGITS.getD digit 0)
      else
        sendCommand d (MAX7219_REG_DIGIT0 + physPos) (SEGMENT_HEX.getD (digit - 10) 0)
    let value := value >>> 4
    if value = 0 ∧ i > 0 then
      (List.range i).reverse.foldl
        (fun (s : Driver) (j : Nat) =>
          sendCommand s (MAX7219_REG_DIGIT0 + getPhysicalPosition s (toUint8 (j : Int)))
            SEGMENT_BLANK)
        d
    else hexLoop i d value

/-- Source function `MAX7219::displayHex(uint32_t value)`. -/
def displayHex (d : Driver) (value : Nat) : Driver :=
  let d := if d.mode = MAX7219_MODE_DECODE then setMode d MAX7219_MODE_NO_DECODE else d
  hexLoop d.numDigits d value

/-- Source function `MAX7219::displayBinary(uint8_t value)`. -/
def displayBinary (d : Driver) (value : Nat) : Driver :=
  if d.numDigits < 8 then d
  else
    (List.range 8).foldl
      (fun (s : Driver) (i : Nat) =>
        displayAt s (toUint8 (i : Int)) ((value >>> (7 - i)) &&& 1) false)
      d

/-! ## Animation functions -/

/-- The loop of `countUp`, `for (long i = from; i <= to; i++)`.  The first
argument bounds the number of iterations; the result is `none` when that
bound is used up before the loop condition fails.  The increment is done in
the 32-bit `long` of the target. -/
def countUpLoop : Nat → Driver → Int → Int → Nat → Option Driver
  | 0, d, i, toVal, _ => if i ≤ toVal then none else some d
  | fuel + 1, d, i, toVal, delayMs =>
    if i ≤ toVal then
      countUpLoop fuel (delay (display d i) delayMs) (toLong (i + 1)) toVal delayMs
    else some d

/-- Source function `MAX7219::countUp(long from, long to, uint16_t delayMs)`;
`fuel` bounds the number of loop iterations. -/
def countUp (fuel : Nat) (d : Driver) (fromVal toVal : Int) (delayMs : Nat) : Option Driver :=
  if fromVal > toVal then some d
  else countUpLoop fuel d fromVal toVal delayMs

/-- The loop of `countDown`, `for (long i = from; i >= to; i--)`, with the
same bound on the number of iterations. -/
def countDownLoop : Nat → Driver → Int → Int → Nat → Option Driver
  | 0, d, i, toVal, _ => if i ≥ toVal then none else some d
  | fuel + 1, d, i, toVal, delayMs =>
    if i ≥ toVal then
      countDownLoop fuel (delay (display d i) delayMs) (toLong (i - 1)) toVal delayMs
    else some d

/-- Source function `MAX7219::countDown(long from, long to, uint16_t delayMs)`;
`fuel` bounds the number of loop iterations. -/
def countDown (fuel : Nat) (d : Driver) (fromVal toVal : Int) (delayMs : Nat) : Option Driver :=
  if fromVal < toVal then some d
  else countDownLoop fuel d fromVal toVal delayMs

/-- The loop of `fadeIn`, `for (uint8_t b = 0; b <= 15; b++)`, with a bound
on the number of iterations; the counter is incremented as a `uint8_t`. -/
def fadeInLoop : Nat → Driver → Nat → Nat → Option Driver
  | 0, d, b, _ => if b ≤ 15 then none else some d
  | fuel + 1, d, b, delayMs =>
    if b ≤ 15 then
      fadeInLoop fuel (delay (setBrightness d b) delayMs) ((b + 1) % 256) delayMs
    else some d

/-- Source function `MAX7219::fadeIn(uint16_t delayMs)`; `fuel` bounds the
number of loop iterations. -/
def fadeIn (fuel : Nat) (d : Driver) (delayMs : Nat) : Option Driver :=
  let oldBrightness := d.brightness
  match fadeInLoop fuel d 0 delayMs with
  | none => none
  | some d => some (setBrightness d oldBrightness)

/-- The loop of `fadeOut`, `for (int b = _brightness; b >= 0; b--)`, with a
bound on the number of iterations; `setBrightness` takes the counter as a
`uint8_t`. -/
def fadeOutLoop : Nat → Driver → Int → Nat → Option Driver
  | 0, d, b, _ => if b ≥ 0 then none else some d
  | fuel + 1, d, b, delayMs =>
    if b ≥ 0 then
      fadeOutLoop fuel (delay (setBrightness d (toUint8 b)) delayMs) (b - 1) delayMs
    else some d

/-- Source function `MAX7219::fadeOut(uint16_t delayMs)`; `fuel` bounds the
number of loop iterations. -/
def fadeOut (fuel : Nat) (d : Driver) (delayMs : Nat) : Option Driver :=
  let oldBrightness := d.brightness
  match fadeOutLoop fuel d (d.brightness : Int) delayMs with
  | none => none
  | some d => some (setBrightness d oldBrightness)

/-- The inner loop of `scroll`, `for (int i = 0; i < len; i++)`, for one
offset: character `i` goes to position `offset + i` when that is on the
display. -/
def scrollFrame (d : Driver) (text : List Nat) (offset : Int) : Driver :=
  (List.range text.length).foldl
    (fun (s : Driver) (i : Nat) =>
      let pos : Int := offset + (i : Int)
      if pos ≥ 0 ∧ pos < (s.numDigits : Int) then
        displayAtChar s (toUint8 pos) (text.getD i 0) false
      else s)
    d

/-- Source function `MAX7219::scroll(const char* text, uint16_t delayMs)`.
The outer loop `for (int offset = _numDigits - 1; offset >= -len; offset--)`
makes `_numDigits + len` iterations; iteration `k` has
`offset = _numDigits - 1 - k`. -/
def scroll (d : Driver) (text : List Nat) (delayMs : Nat) : Driver :=
  (List.range (d.numDigits + text.length)).foldl
    (fun (s : Driver) (k : Nat) =>
      let offset : Int := (s.numDigits : Int) - 1 - (k : Int)
      let s := clear s
      let s := scrollFrame s text offset
      delay s delayMs)
    d

/-! ## Low-level control -/

/-- Source function `MAX7219::setSegments(uint8_t position, uint8_t segments)`. -/
def setSegments (d : Driver) (position segments : Nat) : Driver :=
  if position ≥ d.numDigits then d
  else
    let physPos := getPhysicalPosition d position
    sendCommand d (MAX7219_REG_DIGIT0 + physPos) segments

/-- Source function `MAX7219::setRawDigit(uint8_t position, uint8_t value, bool dp)`. -/
def setRawDigit (d : Driver) (position value : Nat) (dp : Bool) : Driver :=
  if position ≥ d.numDigits then d
  else
    let physPos := getPhysicalPosition d position
    let data := value
    let data := if dp then data ||| 0x80 else data
    sendCommand d (MAX7219_REG_DIGIT0 + physPos) data

/-! ## The three-wire bus at pin level

`sendCommand` above records a frame as the pair `(address, data)`.  The
functions below give the calls of the Arduino core that the same source
function and its helpers `sendByte` and `sendBit` make on the three pins. -/

/-- A call of the Arduino core made by the bus code. -/
inductive PinEvent where
  | digitalWrite (pin : Nat) (level : Bool)
  | delayMicroseconds (us : Nat)
  deriving DecidableEq, Repr

/-- The Arduino level `HIGH`. -/
def HIGH : Bool := true

/-- The Arduino level `LOW`. -/
def LOW : Bool := false

/-- Source function `MAX7219::sendBit(uint8_t bit)`. -/
def sendBit (d : Driver) (bit : Nat) : List PinEvent :=
  [PinEvent.digitalWrite d.dinPin (if bit ≠ 0 then HIGH else LOW),
   PinEvent.delayMicroseconds 1,
   PinEvent.digitalWrite d.clkPin HIGH,
   PinEvent.delayMicroseconds 1,
   PinEvent.digitalWrite d.clkPin LOW]

/-- Source function `MAX7219::sendByte(uint8_t data)`, with the loop
`for (int i = 7; i >= 0; i--)`. -/
def sendByte (d : Driver) (data : Nat) : List PinEvent :=
  (List.range 8).reverse.foldl
    (fun (w : List PinEvent) (i : Nat) => w ++ sendBit d ((data >>> i) &&& 0x01)) []

/-- Source function `MAX7219::sendCommand(uint8_t address, uint8_t data)` at
pin level. -/
def sendCommandPins (d : Driver) (address data : Nat) : List PinEvent :=
  [PinEvent.digitalWrite d.csPin LOW, PinEvent.delayMicroseconds 1]
    ++ sendByte d address
    ++ sendByte d data
    ++ [PinEvent.delayMicroseconds 1, PinEvent.digitalWrite d.csPin HIGH,
        PinEvent.delayMicroseconds 1]

/-- The chip side of the bus: the levels of the data line sampled at the
rising edges of the clock line, in the order of the edges.  The arguments
`din` and `clk` are the current levels of the two lines. -/
def clockedBits (d : Driver) : Bool → Bool → List PinEvent → List Bool
  | _, _, [] => []
  | din, clk, PinEvent.delayMicroseconds _ :: es => clockedBits d din clk es
  | din, clk, PinEvent.digitalWrite pin level :: es =>
    if pin = d.clkPin then
      if level = true ∧ clk = false then din :: clockedBits d din level es
      else clockedBits d din level es
    else if pin = d.dinPin then clockedBits d level clk es
    else clockedBits d din clk es

/-- The number whose binary digits are `bits`, most significant first. -/
def fromBits (bits : List Bool) : Nat :=
  bits.foldl (fun n b => 2 * n + (if b then 1 else 0)) 0

/-! ## Vocabulary of the statements -/

/-- The number of decimal digits of `v`; the value `0` has one digit. -/
def decimalLength (v : Nat) : Nat := max 1 (Nat.digits 10 v).length

/-- The data byte that shows the decimal digit `x` in the given mode: the
digit itself in hardware-decode mode, its segment pattern otherwise. -/
def digitCode (mode x : Nat) : Nat :=
  if mode = MAX7219_MODE_DECODE then x else digitToSegments x

/-- The blank code of the given mode. -/
def blankCode (mode : Nat) : Nat :=
  if mode = MAX7219_MODE_DECODE then 0x0F else 0x00

/-- The minus code of the given mode. -/
def minusCode (mode : Nat) : Nat :=
  if mode = MAX7219_MODE_DECODE then 0x0A else SEGMENT_MINUS

/-- The driver `d` after the commands `cmds` have been shifted out. -/
def emit (d : Driver) (cmds : List (Nat × Nat)) : Driver :=
  { d with bus := d.bus ++ cmds }

/-- The command of one in-range call `displayAt(position, value, dp)`. -/
def displayAtCmd (d : Driver) (position value : Nat) (dp : Bool) : Nat × Nat :=
  ((MAX7219_REG_DIGIT0 + getPhysicalPosition d position) % 256,
   (if d.mode = MAX7219_MODE_DECODE then
      (if dp then constrain value 0 9 ||| 0x80 else constrain value 0 9)
    else
      (if dp then (if value ≤ 9 then digitToSegments value else SEGMENT_BLANK) ||| SEGMENT_DOT
       else (if value ≤ 9 then digitToSegments value else SEGMENT_BLANK))) % 256)

/-- The command of one in-range call `displayAt(position, character)`. -/
def displayAtCharCmd (d : Driver) (position character : Nat) : Nat × Nat :=
  ((MAX7219_REG_DIGIT0 + getPhysicalPosition d position) % 256,
   (if d.mode = MAX7219_MODE_DECODE then
      (if '0'.toNat ≤ character ∧ character ≤ '9'.toNat then character - '0'.toNat
       else if character = '-'.toNat then 0x0A else 0x0F)
    else charToSegments character) % 256)

/-- The commands of `clear`. -/
def clearCmds (d : Driver) : List (Nat × Nat) :=
  (List.range d.numDigits).map (fun i => ((MAX7219_REG_DIGIT0 + i) % 256, blankCode d.mode))

/-- The bits `7 .. 0` of a byte, most significant first. -/
def byteBits (x : Nat) : List Bool :=
  [x.testBit 7, x.testBit 6, x.testBit 5, x.testBit 4,
   x.testBit 3, x.testBit 2, x.testBit 1, x.testBit 0]

/-- The pin calls that clock out the given bits: for each bit, the data line
is set, then the clock line is pulsed high and low. -/
def pulses (d : Driver) : List Bool → List PinEvent
  | [] => []
  | b :: bs =>
    [PinEvent.digitalWrite d.dinPin b,
     PinEvent.delayMicroseconds 1,
     PinEvent.digitalWrite d.clkPin HIGH,
     PinEvent.delayMicroseconds 1,
     PinEvent.digitalWrite d.clkPin LOW] ++ pulses d bs

/-! ## Registers read back from the bus -/

theorem readReg_nil (a : Nat) : readReg [] a = none := rfl

theorem readReg_concat (xs : List (Nat × Nat)) (c : Nat × Nat) (a : Nat) :
    readReg (xs ++ [c]) a = if c.1 = a then some c.2 else readReg xs a := by
  simp [readReg, List.foldl_append]

/-- Commands to other registers do not change what is read at `a`. -/
theorem readReg_append_of_not_mem (xs ys : List (Nat × Nat)) (a : Nat)
    (h : ∀ c ∈ ys, c.1 ≠ a) : readReg (xs ++ ys) a = readReg xs a := by
  induction ys using List.reverseRecOn with
  | nil => simp
  | append_singleton ys c ih =>
    rw [← List.append_assoc, readReg_concat]
    have hc : c.1 ≠ a := h c (by simp)
    rw [if_neg hc]
    exact ih (fun c' hc' => h c' (by simp [hc']))

/-- If some command of `ys` addresses `a` and all of those carry `v`, then `v`
is read at `a`. -/
theorem readReg_append_of_mem (xs ys : List (Nat × Nat)) (a v : Nat)
    (hex : ∃ c ∈ ys, c.1 = a) (hval : ∀ c ∈ ys, c.1 = a → c.2 = v) :
    readReg (xs ++ ys) a = some v := by
  induction ys using List.reverseRecOn with
  | nil => simp at hex
  | append_singleton ys c ih =>
    rw [← List.append_assoc, readReg_concat]
    by_cases hc : c.1 = a
    · rw [if_pos hc, hval c (by simp) hc]
    · rw [if_neg hc]
      apply ih
      · obtain ⟨c', hc', hca⟩ := hex
        rcases List.mem_append.mp hc' with h1 | h1
        · exact ⟨c', h1, hca⟩
        · simp at h1
          subst h1
          exact absurd hca hc
      · exact fun c' hc' => hval c' (by simp [hc'])

/-! ## The commands of the single-position operations -/

@[simp] theorem emit_numDigits (d : Driver) (cs : List (Nat × Nat)) :
    (emit d cs).numDigits = d.numDigits := rfl

@[simp] theorem emit_mode (d : Driver) (cs : List (Nat × Nat)) :
    (emit d cs).mode = d.mode := rfl

@[simp] theorem emit_alignment (d : Driver) (cs : List (Nat × Nat)) :
    (emit d cs).alignment = d.alignment := rfl

@[simp] theorem emit_brightness (d : Driver) (cs : List (Nat × Nat)) :
    (emit d cs).brightness = d.brightness := rfl

@[simp] theorem emit_bus (d : Driver) (cs : List (Nat × Nat)) :
    (emit d cs).bus = d.bus ++ cs := rfl

@[simp] theorem emit_emit (d : Driver) (cs cs' : List (Nat × Nat)) :
    emit (emit d cs) cs' = emit d (cs ++ cs') := by
  simp [emit, List.append_assoc]

@[simp] theorem emit_nil (d : Driver) : emit d [] = d := by
  simp [emit]

@[simp] theorem getPhysicalPosition_emit (d : Driver) (cs : List (Nat × Nat)) (p : Nat) :
    getPhysicalPosition (emit d cs) p = getPhysicalPosition d p := rfl

@[simp] theorem displayAtCmd_emit (d : Driver) (cs : List (Nat × Nat)) (p v : Nat) (dp : Bool) :
    displayAtCmd (emit d cs) p v dp = displayAtCmd d p v dp := rfl

@[simp] theorem displayAtCharCmd_emit (d : Driver) (cs : List (Nat × Nat)) (p c : Nat) :
    displayAtCharCmd (emit d cs) p c = displayAtCharCmd d p c := rfl

theorem sendCommand_eq_emit (d : Driver) (a x : Nat) :
    sendCommand d a x = emit d [(a % 256, x % 256)] := rfl

theorem displayAt_of_lt (d : Driver) (p v : Nat) (dp : Bool) (h : p < d.numDigits) :
    displayAt d p v dp = emit d [displayAtCmd d p v dp] := by
  unfold displayAt displayAtCmd
  rw [if_neg (by omega)]
  by_cases hm : d.mode = MAX7219_MODE_DECODE <;> cases dp <;>
    simp [hm, sendCommand_eq_emit]

theorem displayAt_of_ge (d : Driver) (p v : Nat) (dp : Bool) (h : d.numDigits ≤ p) :
    displayAt d p v dp = d := by
  unfold displayAt
  rw [if_pos h]

theorem displayAtChar_of_lt (d : Driver) (p c : Nat) (h : p < d.numDigits) :
    displayAtChar d p c false = emit d [displayAtCharCmd d p c] := by
  unfold displayAtChar displayAtCharCmd
  rw [if_neg (by omega)]
  by_cases hm : d.mode = MAX7219_MODE_DECODE
  · simp only [hm, if_true, sendCommand_eq_emit, Bool.false_eq_true, if_false]
    split_ifs <;> simp
  · simp [hm, sendCommand_eq_emit]

theorem clear_eq_emit (d : Driver) : clear d = emit d (clearCmds d) := by
  unfold clear clearCmds
  have key : ∀ (l : List Nat) (s : Driver),
      l.foldl (fun s i =>
        if s.mode = MAX7219_MODE_DECODE then
          sendCommand s (MAX7219_REG_DIGIT0 + i) 0x0F
        else
          sendCommand s (MAX7219_REG_DIGIT0 + i) 0x00) s
      = emit s (l.map (fun i => ((MAX7219_REG_DIGIT0 + i) % 256, blankCode s.mode))) := by
    intro l
    induction l with
    | nil => intro s; simp
    | cons i l ih =>
      intro s
      rw [List.foldl_cons, ih]
      by_cases hm : s.mode = MAX7219_MODE_DECODE <;>
        simp [hm, sendCommand_eq_emit, blankCode]
  exact key _ d

/-! ## Decimal digits -/

theorem decimalLength_pos (v : Nat) : 1 ≤ decimalLength v := by
  unfold decimalLength
  omega

theorem lt_pow_decimalLength (v : Nat) : v < 10 ^ decimalLength v := by
  have h1 : v < 10 ^ (Nat.digits 10 v).length := Nat.lt_base_pow_length_digits (by norm_num)
  have h2 : (10 : Nat) ^ (Nat.digits 10 v).length ≤ 10 ^ decimalLength v :=
    Nat.pow_le_pow_right (by norm_num) (by unfold decimalLength; omega)
  omega

theorem pow_le_of_decimalLength (v : Nat) (h : 2 ≤ decimalLength v) :
    10 ^ (decimalLength v - 1) ≤ v := by
  have hlen : decimalLength v = (Nat.digits 10 v).length := by
    unfold decimalLength at h ⊢
    omega
  have hv : v ≠ 0 := by
    rintro rfl
    simp [decimalLength] at h
  have h1 : 10 ^ (Nat.digits 10 v).length ≤ 10 * v :=
    Nat.base_pow_length_digits_le 10 v (by norm_num) hv
  rw [hlen]
  have h2 : (10 : Nat) ^ (Nat.digits 10 v).length = 10 * 10 ^ ((Nat.digits 10 v).length - 1) := by
    rw [← pow_succ']
    congr 1
    omega
  omega

/-- The digits of `v` of weights `10^0 .. 10^(k-1)`, least significant first. -/
theorem collectDigits_eq (room : Nat) : ∀ (w : Nat) (acc : List Nat) (j : Nat),
    j ≤ room → w < 10 ^ j → (j = 0 ∨ 10 ^ (j - 1) ≤ w) →
    collectDigits room (w : Int) acc
      = acc ++ (List.range j).map (fun i => w / 10 ^ i % 10) := by
  induction room with
  | zero =>
    intro w acc j hj _ _
    have : j = 0 := by omega
    subst this
    simp [collectDigits]
  | succ room ih =>
    intro w acc j hj hlt hge
    cases j with
    | zero =>
      have hw : w = 0 := by simpa using hlt
      subst hw
      simp [collectDigits]
    | succ j =>
      have hge' : 10 ^ j ≤ w := by
        rcases hge with h | h
        · omega
        · simpa using h
      have hpos : 0 < w := lt_of_lt_of_le (Nat.pow_pos (by norm_num)) hge'
      have e1 : Int.tdiv (w : Int) 10 = ((w / 10 : Nat) : Int) := by
        rw [Int.tdiv_eq_ediv (by omega) (by norm_num)]
        omega
      have e2 : (Int.tmod (w : Int) 10).toNat = w % 10 := by
        rw [Int.tmod_eq_emod (by omega) (by norm_num)]
        omega
      have hgt : (w : Int) > 0 := by omega
      rw [collectDigits, if_pos hgt, e1, e2]
      have hlt' : w / 10 < 10 ^ j := by
        rw [Nat.div_lt_iff_lt_mul (by norm_num)]
        rw [pow_succ] at hlt
        exact hlt
      have hge'' : j = 0 ∨ 10 ^ (j - 1) ≤ w / 10 := by
        cases j with
        | zero => left; rfl
        | succ j =>
          right
          rw [Nat.le_div_iff_mul_le (by norm_num)]
          simp only [Nat.add_sub_cancel]
          rw [pow_succ] at hge'
          exact hge'
      rw [ih (w / 10) (acc ++ [w % 10]) j (by omega) hlt' hge'']
      rw [List.range_succ_eq_map, List.map_cons, List.map_map, List.append_assoc]
      congr 1
      simp only [pow_zero, Nat.div_one, List.singleton_append, List.cons.injEq, true_and]
      apply List.map_congr_left
      intro i _
      simp only [Function.comp, Nat.succ_eq_add_one]
      rw [Nat.div_div_eq_div_mul, pow_succ']

/-- The digits collected by the rendering functions for a value of at most
eight digits. -/
theorem collected_digits (w : Nat) (hk : decimalLength w ≤ 8) :
    (if (w : Int) = 0 then [0] else collectDigits 8 (w : Int) [])
      = (List.range (decimalLength w)).map (fun i => w / 10 ^ i % 10) := by
  by_cases hw : w = 0
  · subst hw
    simp [decimalLength]
  · have hne : ¬ ((w : Int) = 0) := by omega
    rw [if_neg hne]
    have hge : decimalLength w = 0 ∨ 10 ^ (decimalLength w - 1) ≤ w := by
      right
      by_cases h2 : 2 ≤ decimalLength w
      · exact pow_le_of_decimalLength w h2
      · have h1 := decimalLength_pos w
        have : decimalLength w = 1 := by omega
        rw [this]
        simp
        omega
    rw [collectDigits_eq 8 w [] (decimalLength w) hk (lt_pow_decimalLength w) hge]
    simp

theorem top_digit_ne_zero (w : Nat) (h : 2 ≤ decimalLength w) :
    w / 10 ^ (decimalLength w - 1) % 10 ≠ 0 := by
  have h1 := pow_le_of_decimalLength w h
  have h2 := lt_pow_decimalLength w
  have h3 : 1 ≤ w / 10 ^ (decimalLength w - 1) := by
    rw [Nat.le_div_iff_mul_le (Nat.pow_pos (by norm_num))]
    simpa using h1
  have h4 : w / 10 ^ (decimalLength w - 1) < 10 := by
    rw [Nat.div_lt_iff_lt_mul (Nat.pow_pos (by norm_num))]
    have : (10 : Nat) ^ decimalLength w = 10 * 10 ^ (decimalLength w - 1) := by
      rw [← pow_succ']
      congr 1
      omega
    omega
  omega

/-! ## The rendering loop of `displayNumberInternal` -/

@[simp] theorem digitPos_emit (d : Driver) (cs : List (Nat × Nat)) (sp k i : Nat) :
    digitPos (emit d cs) sp k i = digitPos d sp k i := rfl

@[simp] theorem startPosOf_emit (d : Driver) (cs : List (Nat × Nat)) (k : Nat) :
    startPosOf (emit d cs) k = startPosOf d k := rfl

/-- An iteration that shows its digit: a digit was shown before, or the digit
is not zero, or it is the last one. -/
theorem numberStep_show (digits : List Nat) (sp : Nat) (d : Driver) (hs : Bool) (lp i : Nat)
    (h : hs = true ∨ digits.getD i 0 ≠ 0 ∨ i = 0) :
    numberStep false digits sp (d, hs, lp) i
      = (displayAt d (digitPos d sp digits.length i) (digits.getD i 0) false, true,
         digitPos d sp digits.length i) := by
  unfold numberStep
  have hc : (!false && !hs && digits.getD i 0 == 0 && decide (i > 0)) = false := by
    rcases h with h | h | h
    · simp [h]
    · have h' : (digits.getD i 0 == 0) = false := beq_false_of_ne h
      rw [h']
      simp
    · simp [h]
  simp only [hc]
  simp

/-- Once a digit has been shown, every following iteration shows its digit. -/
theorem numberLoop_shown (digits : List Nat) (sp : Nat) (l : List Nat) :
    ∀ (d : Driver) (lp : Nat),
    (∀ i ∈ l, digitPos d sp digits.length i < d.numDigits) →
    l.foldl (numberStep false digits sp) (d, true, lp)
      = (emit d (l.map (fun i =>
            displayAtCmd d (digitPos d sp digits.length i) (digits.getD i 0) false)),
         true, l.foldl (fun _ i => digitPos d sp digits.length i) lp) := by
  induction l with
  | nil => intro d lp _; simp
  | cons i l ih =>
    intro d lp hpos
    rw [List.foldl_cons, numberStep_show digits sp d true lp i (Or.inl rfl)]
    rw [displayAt_of_lt d _ _ _ (hpos i (by simp))]
    rw [ih]
    · simp
    · intro j hj
      simpa using hpos j (by simp [hj])

theorem foldl_last_reverse_range (f : Nat → Nat) (k lp : Nat) :
    (List.range (k + 1)).reverse.foldl (fun _ i => f i) lp = f 0 := by
  rw [List.range_succ_eq_map, List.reverse_cons, List.foldl_append]
  simp

/-- The whole rendering loop for a digit list whose top digit is not a
suppressed zero, all positions being on the display. -/
theorem numberLoop_eq (digits : List Nat) (sp : Nat) (d : Driver)
    (hlen : 1 ≤ digits.length)
    (htop : digits.getD (digits.length - 1) 0 ≠ 0 ∨ digits.length = 1)
    (hpos : ∀ i, i < digits.length → digitPos d sp digits.length i < d.numDigits) :
    (List.range digits.length).reverse.foldl (numberStep false digits sp) (d, false, 0)
      = (emit d ((List.range digits.length).reverse.map (fun i =>
            displayAtCmd d (digitPos d sp digits.length i) (digits.getD i 0) false)),
         true, digitPos d sp digits.length 0) := by
  obtain ⟨k, hk⟩ : ∃ k, digits.length = k + 1 := ⟨digits.length - 1, by omega⟩
  have hlast : (List.range digits.length).reverse.foldl
      (fun _ i => digitPos d sp digits.length i) 0 = digitPos d sp digits.length 0 := by
    rw [hk]
    exact foldl_last_reverse_range (fun i => digitPos d sp (k + 1) i) k 0
  have hsplit : (List.range digits.length).reverse = k :: (List.range k).reverse := by
    rw [hk, List.range_succ, List.reverse_append]
    rfl
  have hstep : numberStep false digits sp (d, false, 0) k
      = (displayAt d (digitPos d sp digits.length k) (digits.getD k 0) false, true,
         digitPos d sp digits.length k) := by
    apply numberStep_show
    right
    rcases htop with h | h
    · left
      have : digits.length - 1 = k := by omega
      rwa [this] at h
    · right
      omega
  rw [← hlast]
  rw [hsplit, List.foldl_cons, hstep, displayAt_of_lt d _ _ _ (hpos k (by omega))]
  rw [numberLoop_shown]
  · simp
  · intro i hi
    have : i < k := by simpa using hi
    simpa using hpos i (by omega)

theorem toLong_natAbs_of_neg (number : Int) (hneg : number < 0)
    (hsmall : number.natAbs < 2147483648) :
    toLong (-number) = (number.natAbs : Int) := by
  unfold toLong
  omega

theorem showSign_nonneg (d : Driver) (hs : Bool) (sp lp : Nat) :
    showSign d false hs sp lp = d := by
  simp [showSign]

/-- The commands of integer rendering for a value whose absolute value `w`
has at most eight digits, all digit positions being on the display: the
blank writes of `clear`, one command per digit from the most significant
one down, and then the sign block. -/
theorem displayNumberInternal_eq (d : Driver) (number : Int) (w : Nat)
    (hw : w = number.natAbs) (hk : decimalLength w ≤ 8)
    (hpos : ∀ i, i < decimalLength w →
      digitPos d (startPosOf d (decimalLength w)) (decimalLength w) i < d.numDigits) :
    displayNumberInternal d number false
      = showSign
          (emit d (clearCmds d ++ (List.range (decimalLength w)).reverse.map (fun i =>
            displayAtCmd d (digitPos d (startPosOf d (decimalLength w)) (decimalLength w) i)
              (w / 10 ^ i % 10) false)))
          (decide (number < 0)) true (startPosOf d (decimalLength w))
          (digitPos d (startPosOf d (decimalLength w)) (decimalLength w) 0) := by
  have hwlt : w < 10 ^ 8 :=
    lt_of_lt_of_le (lt_pow_decimalLength w) (Nat.pow_le_pow_right (by norm_num) hk)
  have habs : (if decide (number < 0) = true then toLong (-number) else number) = (w : Int) := by
    by_cases hneg : number < 0
    · simp only [hneg, decide_True, if_true]
      rw [toLong_natAbs_of_neg number hneg (by omega), hw]
    · simp only [hneg, decide_False, if_false, Bool.false_eq_true]
      omega
  unfold displayNumberInternal
  simp only [habs, collected_digits w hk, clear_eq_emit]
  have hlenD : ((List.range (decimalLength w)).map (fun i => w / 10 ^ i % 10)).length
      = decimalLength w := by simp
  have hget : ∀ i, i < decimalLength w →
      ((List.range (decimalLength w)).map (fun i => w / 10 ^ i % 10)).getD i 0
        = w / 10 ^ i % 10 := by
    intro i hi
    rw [List.getD_eq_getElem _ _ (by simpa using hi)]
    simp
  have h1 := decimalLength_pos w
  rw [numberLoop_eq]
  · simp only [hlenD, emit_emit, startPosOf_emit, digitPos_emit, displayAtCmd_emit]
    congr 3
    apply List.map_congr_left
    intro i hi
    have hi' : i < decimalLength w := by simpa using hi
    rw [hget i hi']
  · rw [hlenD]; exact h1
  · rw [hlenD]
    by_cases h2 : 2 ≤ decimalLength w
    · left
      rw [hget _ (by omega)]
      exact top_digit_ne_zero w h2
    · right
      omega
  · intro i hi
    rw [hlenD] at hi ⊢
    simpa using hpos i hi

/-! ## Registers after a rendering -/

theorem digitToSegments_lt (x : Nat) : digitToSegments x < 128 := by
  unfold digitToSegments
  split_ifs with h
  · interval_cases x <;> simp [SEGMENT_DIGITS]
  · simp [SEGMENT_BLANK]

theorem charToSegments_lt (c : Nat) : charToSegments c < 128 := by
  unfold charToSegments
  split_ifs with h1 h2 h3 h4 h5
  · obtain ⟨ha, hb⟩ := h1
    simp only [Char.reduceToNat] at ha hb ⊢
    obtain ⟨k, rfl⟩ : ∃ k, c = 48 + k := ⟨c - 48, by omega⟩
    have hk : k ≤ 9 := by omega
    simp only [Nat.add_sub_cancel_left]
    interval_cases k <;> simp [SEGMENT_DIGITS]
  · obtain ⟨ha, hb⟩ := h2
    simp only [Char.reduceToNat] at ha hb ⊢
    obtain ⟨k, rfl⟩ : ∃ k, c = 65 + k := ⟨c - 65, by omega⟩
    have hk : k ≤ 25 := by omega
    simp only [Nat.add_sub_cancel_left]
    interval_cases k <;> simp [SEGMENT_LETTERS]
  · obtain ⟨ha, hb⟩ := h3
    simp only [Char.reduceToNat] at ha hb ⊢
    obtain ⟨k, rfl⟩ : ∃ k, c = 97 + k := ⟨c - 97, by omega⟩
    have hk : k ≤ 25 := by omega
    simp only [Nat.add_sub_cancel_left]
    interval_cases k <;> simp [SEGMENT_LETTERS]
  · simp [SEGMENT_MINUS]
  · simp [SEGMENT_BLANK]
  · simp [SEGMENT_BLANK]

/-- The command that shows a decimal digit without decimal point. -/
theorem displayAtCmd_digit (d : Driver) (p x : Nat) (hx : x ≤ 9) :
    displayAtCmd d p x false
      = ((MAX7219_REG_DIGIT0 + getPhysicalPosition d p) % 256, digitCode d.mode x) := by
  unfold displayAtCmd digitCode
  have hc : constrain x 0 9 = x := by
    unfold constrain
    rw [if_neg (by omega), if_neg (by omega)]
  have hs := digitToSegments_lt x
  by_cases hm : d.mode = MAX7219_MODE_DECODE
  · simp only [hm, if_true, hc, Bool.false_eq_true, if_false]
    congr 1
    omega
  · simp only [hm, if_false, hx, if_true, Bool.false_eq_true]
    congr 1
    omega

/-- The command that shows the minus sign. -/
theorem displayAtCharCmd_minus (d : Driver) (p : Nat) :
    displayAtCharCmd d p '-'.toNat
      = ((MAX7219_REG_DIGIT0 + getPhysicalPosition d p) % 256, minusCode d.mode) := by
  unfold displayAtCharCmd minusCode
  by_cases hm : d.mode = MAX7219_MODE_DECODE
  · simp [hm]
  · simp [hm, charToSegments, SEGMENT_MINUS]

/-- After `clear`, every digit register of the display reads blank. -/
theorem readReg_clearCmds (pre : List (Nat × Nat)) (d : Driver) (p : Nat)
    (hn : d.numDigits ≤ 8) (hp : p < d.numDigits) :
    readReg (pre ++ clearCmds d) (MAX7219_REG_DIGIT0 + p) = some (blankCode d.mode) := by
  apply readReg_append_of_mem
  · refine ⟨((MAX7219_REG_DIGIT0 + p) % 256, blankCode d.mode), ?_, ?_⟩
    · unfold clearCmds
      exact List.mem_map.mpr ⟨p, List.mem_range.mpr hp, rfl⟩
    · simp only [MAX7219_REG_DIGIT0]
      omega
  · intro c hc _
    unfold clearCmds at hc
    obtain ⟨i, _, rfl⟩ := List.mem_map.mp hc
    rfl

/-- Registers after `clear` followed by a list of writes `(addr i, val i)`
with pairwise different addresses: a written register reads its value. -/
theorem readReg_written (pre : List (Nat × Nat)) (d : Driver) (l : List Nat)
    (addr val : Nat → Nat) (i : Nat) (hi : i ∈ l)
    (hinj : ∀ j ∈ l, addr j = addr i → j = i) :
    readReg (pre ++ (clearCmds d ++ l.map (fun j => (addr j, val j)))) (addr i)
      = some (val i) := by
  rw [← List.append_assoc]
  apply readReg_append_of_mem
  · exact ⟨(addr i, val i), List.mem_map.mpr ⟨i, hi, rfl⟩, rfl⟩
  · intro c hc hca
    obtain ⟨j, hj, rfl⟩ := List.mem_map.mp hc
    have : j = i := hinj j hj hca
    rw [this]

/-- Registers after `clear` followed by a list of writes: a digit register
that none of them addresses still reads blank. -/
theorem readReg_not_written (pre : List (Nat × Nat)) (d : Driver) (l : List Nat)
    (addr val : Nat → Nat) (p : Nat) (hn : d.numDigits ≤ 8) (hp : p < d.numDigits)
    (hne : ∀ j ∈ l, addr j ≠ MAX7219_REG_DIGIT0 + p) :
    readReg (pre ++ (clearCmds d ++ l.map (fun j => (addr j, val j)))) (MAX7219_REG_DIGIT0 + p)
      = some (blankCode d.mode) := by
  rw [← List.append_assoc, readReg_append_of_not_mem]
  · exact readReg_clearCmds pre d p hn hp
  · intro c hc
    obtain ⟨j, hj, rfl⟩ := List.mem_map.mp hc
    exact hne j hj

/-! ## Where integer rendering puts the digits -/

/-- Logical positions of the digits of a `k`-digit value on an `n`-digit
display, `k ≤ n ≤ 8`: the digit of weight `10^i` goes to logical position `i`
under right alignment, and to `start + (k - 1 - i)` otherwise, where `start`
is `(n - k) / 2` under center alignment and `0` under left alignment. -/
theorem digitPos_eq (d : Driver) (k i : Nat) (hn : d.numDigits ≤ 8)
    (hk : k ≤ d.numDigits) (hi : i < k) :
    digitPos d (startPosOf d k) k i
      = if d.alignment = MAX7219_ALIGN_RIGHT then i
        else if d.alignment = MAX7219_ALIGN_CENTER then (d.numDigits - k) / 2 + (k - 1 - i)
        else k - 1 - i := by
  unfold digitPos startPosOf toUint8
  by_cases h1 : d.alignment = MAX7219_ALIGN_RIGHT
  · simp only [if_pos h1]
    omega
  · by_cases h2 : d.alignment = MAX7219_ALIGN_CENTER
    · simp only [if_neg h1, if_pos h2]
      rw [Int.tdiv_eq_ediv (by omega) (by norm_num)]
      omega
    · simp only [if_neg h1, if_neg h2]
      omega

theorem digitPos_lt (d : Driver) (k i : Nat) (hn : d.numDigits ≤ 8)
    (hk : k ≤ d.numDigits) (hi : i < k) :
    digitPos d (startPosOf d k) k i < d.numDigits := by
  rw [digitPos_eq d k i hn hk hi]
  split_ifs <;> omega

/-- Physical index of the digit of weight `10^i`. -/
theorem physical_digitPos (d : Driver) (k i : Nat) (hn : d.numDigits ≤ 8)
    (hk : k ≤ d.numDigits) (hi : i < k) :
    getPhysicalPosition d (digitPos d (startPosOf d k) k i)
      = if d.alignment = MAX7219_ALIGN_RIGHT then i
        else if d.alignment = MAX7219_ALIGN_CENTER then
          d.numDigits - 1 - ((d.numDigits - k) / 2 + (k - 1 - i))
        else d.numDigits - 1 - (k - 1 - i) := by
  rw [digitPos_eq d k i hn hk hi]
  unfold getPhysicalPosition toUint8
  by_cases h1 : d.alignment = MAX7219_ALIGN_RIGHT
  · have h0 : ¬ d.alignment = MAX7219_ALIGN_LEFT := by
      rw [h1]; decide
    simp only [if_pos h1, if_neg h0]
  · by_cases h2 : d.alignment = MAX7219_ALIGN_CENTER
    · have h0 : ¬ d.alignment = MAX7219_ALIGN_LEFT := by
        rw [h2]; decide
      simp only [if_neg h1, if_pos h2, if_neg h0]
      omega
    · simp only [if_neg h1, if_neg h2, ite_self]
      omega

theorem physical_digitPos_lt (d : Driver) (k i : Nat) (hn : d.numDigits ≤ 8)
    (hk : k ≤ d.numDigits) (hi : i < k) :
    getPhysicalPosition d (digitPos d (startPosOf d k) k i) < d.numDigits := by
  rw [physical_digitPos d k i hn hk hi]
  split_ifs <;> omega

theorem physical_digitPos_inj (d : Driver) (k i j : Nat) (hn : d.numDigits ≤ 8)
    (hk : k ≤ d.numDigits) (hi : i < k) (hj : j < k)
    (h : getPhysicalPosition d (digitPos d (startPosOf d k) k j)
      = getPhysicalPosition d (digitPos d (startPosOf d k) k i)) : j = i := by
  rw [physical_digitPos d k i hn hk hi, physical_digitPos d k j hn hk hj] at h
  split_ifs at h <;> omega

/-- The commands of integer rendering, sign block apart, in address and
data form. -/
theorem digit_cmds_eq (d : Driver) (w k : Nat) (hn : d.numDigits ≤ 8) (hk : k ≤ d.numDigits) :
    (List.range k).reverse.map (fun i =>
        displayAtCmd d (digitPos d (startPosOf d k) k i) (w / 10 ^ i % 10) false)
      = (List.range k).reverse.map (fun i =>
          (MAX7219_REG_DIGIT0 + getPhysicalPosition d (digitPos d (startPosOf d k) k i),
           digitCode d.mode (w / 10 ^ i % 10))) := by
  apply List.map_congr_left
  intro i hi
  have hi' : i < k := by simpa using hi
  rw [displayAtCmd_digit d _ _ (by omega)]
  have := physical_digitPos_lt d k i hn hk hi'
  congr 1
  simp only [MAX7219_REG_DIGIT0]
  omega

/-- Registers after `clear` and the digit commands of a value `w` that fits
the display, whatever was sent before: the digit of weight `10^i` is read at
its physical index, every other digit register of the display reads blank. -/
theorem rendered_regs (pre : List (Nat × Nat)) (d : Driver) (w : Nat) (hn : d.numDigits ≤ 8)
    (hk : decimalLength w ≤ d.numDigits) :
    (∀ i, i < decimalLength w →
      readReg (pre ++ (clearCmds d ++ (List.range (decimalLength w)).reverse.map (fun i =>
          displayAtCmd d (digitPos d (startPosOf d (decimalLength w)) (decimalLength w) i)
            (w / 10 ^ i % 10) false)))
        (MAX7219_REG_DIGIT0 +
          getPhysicalPosition d (digitPos d (startPosOf d (decimalLength w)) (decimalLength w) i))
        = some (digitCode d.mode (w / 10 ^ i % 10))) ∧
    (∀ p, p < d.numDigits →
      (∀ i, i < decimalLength w →
        getPhysicalPosition d (digitPos d (startPosOf d (decimalLength w)) (decimalLength w) i) ≠ p) →
      readReg (pre ++ (clearCmds d ++ (List.range (decimalLength w)).reverse.map (fun i =>
          displayAtCmd d (digitPos d (startPosOf d (decimalLength w)) (decimalLength w) i)
            (w / 10 ^ i % 10) false)))
        (MAX7219_REG_DIGIT0 + p) = some (blankCode d.mode)) := by
  rw [digit_cmds_eq d w _ hn hk]
  constructor
  · intro i hi
    apply readReg_written (i := i)
    · simpa using hi
    · intro j hj hji
      have hj' : j < decimalLength w := by simpa using hj
      exact physical_digitPos_inj d _ i j hn hk hi hj' (by omega)
  · intro p hp hne
    apply readReg_not_written _ _ _ _ _ _ hn hp
    intro j hj
    have hj' : j < decimalLength w := by simpa using hj
    have := hne j hj'
    omega

/-- The commands of `display(v)` for a non-negative value that fits the
display. -/
theorem display_nonneg_bus (d : Driver) (v : Nat) (hn : d.numDigits ≤ 8)
    (hk : decimalLength v ≤ d.numDigits) :
    (display d (v : Int)).bus
      = d.bus ++ (clearCmds d ++ (List.range (decimalLength v)).reverse.map (fun i =>
          displayAtCmd d (digitPos d (startPosOf d (decimalLength v)) (decimalLength v) i)
            (v / 10 ^ i % 10) false)) := by
  unfold display
  rw [displayNumberInternal_eq d (v : Int) v (by simp) (by omega)
    (fun i hi => digitPos_lt d _ i hn hk hi)]
  have hnn : decide ((v : Int) < 0) = false := by simp
  rw [hnn, showSign_nonneg, emit_bus]

/-- Registers after the rendering of a non-negative value that fits the
display: the digit of weight `10^i` is read at its physical index, every
other digit register of the display reads blank. -/
theorem display_nonneg_regs (d : Driver) (v : Nat) (hn : d.numDigits ≤ 8)
    (hk : decimalLength v ≤ d.numDigits) :
    (∀ i, i < decimalLength v →
      readReg (display d (v : Int)).bus (MAX7219_REG_DIGIT0 +
          getPhysicalPosition d (digitPos d (startPosOf d (decimalLength v)) (decimalLength v) i))
        = some (digitCode d.mode (v / 10 ^ i % 10))) ∧
    (∀ p, p < d.numDigits →
      (∀ i, i < decimalLength v →
        getPhysicalPosition d (digitPos d (startPosOf d (decimalLength v)) (decimalLength v) i) ≠ p) →
      readReg (display d (v : Int)).bus (MAX7219_REG_DIGIT0 + p) = some (blankCode d.mode)) := by
  rw [display_nonneg_bus d v hn hk]
  exact rendered_regs d.bus d v hn hk

/-- The sign block for a negative value after at least one digit was shown. -/
theorem showSign_neg (d : Driver) (sp lp : Nat) :
    showSign d true true sp lp
      = if leftmostPosOf d sp ≠ lp ∧ leftmostPosOf d sp < d.numDigits then
          emit d [displayAtCharCmd d (leftmostPosOf d sp) '-'.toNat]
        else d := by
  unfold showSign
  simp only [Bool.and_self, if_true]
  split_ifs with h
  · exact displayAtChar_of_lt d _ _ h.2
  · rfl

@[simp] theorem leftmostPosOf_emit (d : Driver) (cs : List (Nat × Nat)) (sp : Nat) :
    leftmostPosOf (emit d cs) sp = leftmostPosOf d sp := rfl

/-- The commands of `display(v)` for a negative value whose absolute value
fits the display: those of the absolute value, followed by at most one write
of the minus sign. -/
theorem display_neg_bus (d : Driver) (v : Int) (hv : v < 0) (hn : d.numDigits ≤ 8)
    (hk : decimalLength v.natAbs ≤ d.numDigits) :
    (display d v).bus
      = (d.bus ++ (clearCmds d ++ (List.range (decimalLength v.natAbs)).reverse.map (fun i =>
          displayAtCmd d
            (digitPos d (startPosOf d (decimalLength v.natAbs)) (decimalLength v.natAbs) i)
            (v.natAbs / 10 ^ i % 10) false))) ++
        (if leftmostPosOf d (startPosOf d (decimalLength v.natAbs))
              ≠ digitPos d (startPosOf d (decimalLength v.natAbs)) (decimalLength v.natAbs) 0
            ∧ leftmostPosOf d (startPosOf d (decimalLength v.natAbs)) < d.numDigits then
          [displayAtCharCmd d (leftmostPosOf d (startPosOf d (decimalLength v.natAbs))) '-'.toNat]
        else []) := by
  unfold display
  rw [displayNumberInternal_eq d v v.natAbs rfl (by omega)
    (fun i hi => digitPos_lt d _ i hn hk hi)]
  have hneg : decide (v < 0) = true := by simpa using hv
  rw [hneg, showSign_neg]
  simp only [leftmostPosOf_emit, emit_numDigits, displayAtCharCmd_emit]
  split_ifs <;> simp

/-! ## Integer rendering: claims -/

/-- C1: under right alignment, on a display of `n` digits with `1 ≤ n ≤ 8` and
in either decode mode, `display(v)` of a non-negative `v` with `k ≤ n` decimal
digits leaves digit register `i` (address `0x01 + i`) holding the code of the
digit of weight `10^i` of `v` for `i < k` (the digit itself in hardware-decode
mode, its segment pattern in software mode), and the blank code of the mode
(`0x0F` or `0x00`) for `k ≤ i < n`.  The bound `1 ≤ n` is implied by
`1 ≤ k ≤ n`. -/
theorem C1_display_right_aligned (d : Driver) (v : Nat) (hn8 : d.numDigits ≤ 8)
    (hal : d.alignment = MAX7219_ALIGN_RIGHT)
    (hk : decimalLength v ≤ d.numDigits) :
    (∀ i, i < decimalLength v →
      readReg (display d (v : Int)).bus (0x01 + i)
        = some (if d.mode = MAX7219_MODE_DECODE then v / 10 ^ i % 10
                else digitToSegments (v / 10 ^ i % 10))) ∧
    (∀ i, decimalLength v ≤ i → i < d.numDigits →
      readReg (display d (v : Int)).bus (0x01 + i)
        = some (if d.mode = MAX7219_MODE_DECODE then 0x0F else 0x00)) := by
  have hphys : ∀ i, i < decimalLength v →
      getPhysicalPosition d
        (digitPos d (startPosOf d (decimalLength v)) (decimalLength v) i) = i := by
    intro i hi
    rw [physical_digitPos d _ i hn8 hk hi, if_pos hal]
  obtain ⟨h1, h2⟩ := display_nonneg_regs d v hn8 hk
  constructor
  · intro i hi
    have := h1 i hi
    rw [hphys i hi] at this
    exact this
  · intro i hki hin
    apply h2 i hin
    intro j hj
    rw [hphys j hj]
    omega

/-- C1, witness: on the 8-digit right-aligned display of the constructor,
`display(42)` leaves `2` in register `0x01`, `4` in register `0x02` and the
blank code `0x0F` in the six registers above. -/
theorem C1_display_right_aligned_witness :
    readReg (display (new 2 3 4 8) 42).bus 0x01 = some 2 ∧
    readReg (display (new 2 3 4 8) 42).bus 0x02 = some 4 ∧
    (∀ i, 2 ≤ i → i < 8 → readReg (display (new 2 3 4 8) 42).bus (0x01 + i) = some 0x0F) := by
  have hlen : decimalLength 42 = 2 := by norm_num [decimalLength]
  have h := C1_display_right_aligned (new 2 3 4 8) 42 (by decide) rfl
    (by rw [hlen]; decide)
  rw [hlen] at h
  refine ⟨?_, ?_, ?_⟩
  · simpa [new, MAX7219_MODE_DECODE] using h.1 0 (by decide)
  · simpa [new, MAX7219_MODE_DECODE] using h.1 1 (by decide)
  · intro i h2 h8
    simpa [new, MAX7219_MODE_DECODE] using h.2 i h2 (by simpa [new, constrain] using h8)

/-- C2: under left and under center alignment, on a display of `n` digits
with `1 ≤ n ≤ 8`, `display(v)` of a non-negative `v` with `k ≤ n` decimal
digits puts the `j`-th digit counted from the most significant one, which is
the digit of weight `10^(k-1-j)`, at logical position `start + j`, where
`start = 0` under left alignment and `start = (n - k) / 2` under center
alignment; that position is physical index `n - 1 - (start + j)`, whose
register reads the code of the digit, and every other digit register below
`n` reads the blank code of the mode. -/
theorem C2_display_left_center (d : Driver) (v : Nat)
    (hn1 : 1 ≤ d.numDigits) (hn8 : d.numDigits ≤ 8)
    (hal : d.alignment = MAX7219_ALIGN_LEFT ∨ d.alignment = MAX7219_ALIGN_CENTER)
    (hk : decimalLength v ≤ d.numDigits) (start : Nat)
    (hstart : start = if d.alignment = MAX7219_ALIGN_LEFT then 0
                      else (d.numDigits - decimalLength v) / 2) :
    (∀ j, j < decimalLength v →
      digitPos d (startPosOf d (decimalLength v)) (decimalLength v) (decimalLength v - 1 - j)
        = start + j ∧
      getPhysicalPosition d (start + j) = d.numDigits - 1 - (start + j) ∧
      readReg (display d (v : Int)).bus (0x01 + (d.numDigits - 1 - (start + j)))
        = some (if d.mode = MAX7219_MODE_DECODE then v / 10 ^ (decimalLength v - 1 - j) % 10
                else digitToSegments (v / 10 ^ (decimalLength v - 1 - j) % 10))) ∧
    (∀ p, p < d.numDigits →
      (∀ j, j < decimalLength v → p ≠ d.numDigits - 1 - (start + j)) →
      readReg (display d (v : Int)).bus (0x01 + p)
        = some (if d.mode = MAX7219_MODE_DECODE then 0x0F else 0x00)) := by
  have hnr : ¬ d.alignment = MAX7219_ALIGN_RIGHT := by
    rcases hal with h | h <;> rw [h] <;> decide
  have hpos : ∀ j, j < decimalLength v →
      digitPos d (startPosOf d (decimalLength v)) (decimalLength v) (decimalLength v - 1 - j)
        = start + j := by
    intro j hj
    rw [digitPos_eq d _ _ hn8 hk (by omega), if_neg hnr, hstart]
    rcases hal with h | h
    · have hc : ¬ d.alignment = MAX7219_ALIGN_CENTER := by rw [h]; decide
      rw [if_neg hc, if_pos h]
      omega
    · have hl : ¬ d.alignment = MAX7219_ALIGN_LEFT := by rw [h]; decide
      rw [if_pos h, if_neg hl]
      omega
  have hstart_le : ∀ j, j < decimalLength v → start + j < d.numDigits := by
    intro j hj
    rw [hstart]
    split_ifs <;> omega
  have hphys : ∀ j, j < decimalLength v →
      getPhysicalPosition d (start + j) = d.numDigits - 1 - (start + j) := by
    intro j hj
    have := hstart_le j hj
    unfold getPhysicalPosition toUint8
    simp only [if_neg hnr, ite_self]
    omega
  obtain ⟨h1, h2⟩ := display_nonneg_regs d v hn8 hk
  constructor
  · intro j hj
    refine ⟨hpos j hj, hphys j hj, ?_⟩
    have := h1 (decimalLength v - 1 - j) (by omega)
    rw [hpos j hj, hphys j hj] at this
    exact this
  · intro p hp hne
    apply h2 p hp
    intro i hi
    have hij : decimalLength v - 1 - (decimalLength v - 1 - i) = i := by omega
    have e1 := hpos (decimalLength v - 1 - i) (by omega)
    rw [hij] at e1
    rw [e1, hphys _ (by omega)]
    exact fun h => hne _ (by omega) h.symm

/-- C2, witness: on an 8-digit display with center alignment, `display(42)`
starts at logical position `3`: registers `0x05` and `0x04` read `4` and `2`. -/
theorem C2_display_left_center_witness :
    readReg (display (setAlignment (new 2 3 4 8) MAX7219_ALIGN_CENTER) 42).bus 0x05 = some 4 ∧
    readReg (display (setAlignment (new 2 3 4 8) MAX7219_ALIGN_CENTER) 42).bus 0x04 = some 2 := by
  have hlen : decimalLength 42 = 2 := by norm_num [decimalLength]
  have h := C2_display_left_center (setAlignment (new 2 3 4 8) MAX7219_ALIGN_CENTER) 42
    (by decide) (by decide) (Or.inr rfl) (by rw [hlen]; decide) 3
    (by rw [hlen]; decide)
  rw [hlen] at h
  constructor
  · simpa [new, setAlignment, constrain, MAX7219_MODE_DECODE] using (h.1 0 (by decide)).2.2
  · simpa [new, setAlignment, constrain, MAX7219_MODE_DECODE] using (h.1 1 (by decide)).2.2

/-- C3: on a display of `n` digits with `1 ≤ n ≤ 8`, for every alignment and
either decode mode, `display(0)` leaves exactly one digit register below `n`
holding the code of the digit `0` (`0x00` in hardware-decode mode,
`0b01111110` in software mode) and every other digit register below `n`
holding the blank code; the display is not fully blank. -/
theorem C3_display_zero (d : Driver) (hn1 : 1 ≤ d.numDigits) (hn8 : d.numDigits ≤ 8) :
    (∃ p, p < d.numDigits ∧
      readReg (display d 0).bus (0x01 + p)
        = some (if d.mode = MAX7219_MODE_DECODE then 0x00 else 0b01111110) ∧
      (∀ q, q < d.numDigits → q ≠ p →
        readReg (display d 0).bus (0x01 + q)
          = some (if d.mode = MAX7219_MODE_DECODE then 0x0F else 0x00))) ∧
    ¬ (∀ q, q < d.numDigits →
        readReg (display d 0).bus (0x01 + q)
          = some (if d.mode = MAX7219_MODE_DECODE then 0x0F else 0x00)) := by
  have hlen : decimalLength 0 = 1 := by simp [decimalLength]
  have hk : decimalLength 0 ≤ d.numDigits := by rw [hlen]; exact hn1
  obtain ⟨h1, h2⟩ := display_nonneg_regs d 0 hn8 hk
  rw [hlen] at h1 h2
  have hp := physical_digitPos_lt d 1 0 hn8 hn1 (by decide)
  have hz := h1 0 (by decide)
  have hcode : digitCode d.mode (0 / 10 ^ 0 % 10)
      = if d.mode = MAX7219_MODE_DECODE then 0x00 else 0b01111110 := by
    unfold digitCode
    split_ifs <;> simp [digitToSegments, SEGMENT_DIGITS]
  rw [hcode] at hz
  constructor
  · refine ⟨_, hp, hz, ?_⟩
    intro q hq hne
    apply h2 q hq
    intro i hi
    have : i = 0 := by omega
    subst this
    exact fun h => hne h.symm
  · intro hall
    have hb := hall _ hp
    have hzz : readReg (display d ((0 : Nat) : Int)).bus (MAX7219_REG_DIGIT0 +
        getPhysicalPosition d (digitPos d (startPosOf d 1) 1 0))
        = some (if d.mode = MAX7219_MODE_DECODE then 0x00 else 0b01111110) := hz
    have hbb : readReg (display d ((0 : Nat) : Int)).bus (MAX7219_REG_DIGIT0 +
        getPhysicalPosition d (digitPos d (startPosOf d 1) 1 0))
        = some (if d.mode = MAX7219_MODE_DECODE then 0x0F else 0x00) := hb
    rw [hzz] at hbb
    split_ifs at hbb <;> simp at hbb

/-- C3, witness: on the 8-digit display of the constructor, `display(0)`
leaves the digit code `0x00` in register `0x01` and the blank code in the
seven others. -/
theorem C3_display_zero_witness :
    ∃ p, p < 8 ∧ readReg (display (new 2 3 4 8) 0).bus (0x01 + p) = some 0x00 ∧
      (∀ q, q < 8 → q ≠ p → readReg (display (new 2 3 4 8) 0).bus (0x01 + q) = some 0x0F) := by
  simpa [new, constrain, MAX7219_MODE_DECODE] using
    (C3_display_zero (new 2 3 4 8) (by decide) (by decide)).1

/-- C5: under right alignment, on a display of `n` digits with `2 ≤ n ≤ 8`,
`display(v)` of a negative `v` whose absolute value has `k < n` decimal digits
shows the digits of `|v|` at logical positions `0 .. k-1`, least significant
at `0`, and the minus code of the mode (`0x0A` in hardware-decode mode,
`0b00000001` in software mode) at logical position `n - 1`; every position
in between is blank.  Logical and physical positions coincide under right
alignment.  The bound `2 ≤ n` is implied by `1 ≤ k < n`. -/
theorem C5_display_negative_right (d : Driver) (v : Int) (hv : v < 0)
    (hn8 : d.numDigits ≤ 8) (hal : d.alignment = MAX7219_ALIGN_RIGHT)
    (hk : decimalLength v.natAbs < d.numDigits) :
    (∀ p, getPhysicalPosition d p = p) ∧
    (∀ i, i < decimalLength v.natAbs →
      readReg (display d v).bus (0x01 + i)
        = some (if d.mode = MAX7219_MODE_DECODE then v.natAbs / 10 ^ i % 10
                else digitToSegments (v.natAbs / 10 ^ i % 10))) ∧
    readReg (display d v).bus (0x01 + (d.numDigits - 1))
        = some (if d.mode = MAX7219_MODE_DECODE then 0x0A else 0b00000001) ∧
    (∀ i, decimalLength v.natAbs ≤ i → i < d.numDigits - 1 →
      readReg (display d v).bus (0x01 + i)
        = some (if d.mode = MAX7219_MODE_DECODE then 0x0F else 0x00)) := by
  have hk1 := decimalLength_pos v.natAbs
  have hnl : ¬ d.alignment = MAX7219_ALIGN_LEFT := by rw [hal]; decide
  have hnc : ¬ d.alignment = MAX7219_ALIGN_CENTER := by rw [hal]; decide
  have hgpp : ∀ p, getPhysicalPosition d p = p := by
    intro p
    unfold getPhysicalPosition
    rw [if_neg hnl, if_pos hal]
  have hphys : ∀ i, i < decimalLength v.natAbs →
      getPhysicalPosition d
        (digitPos d (startPosOf d (decimalLength v.natAbs)) (decimalLength v.natAbs) i) = i := by
    intro i hi
    rw [physical_digitPos d _ i hn8 (by omega) hi, if_pos hal]
  have hlm : ∀ sp, leftmostPosOf d sp = d.numDigits - 1 := by
    intro sp
    unfold leftmostPosOf toUint8
    rw [if_neg hnl, if_neg hnc]
    omega
  have hlast : digitPos d (startPosOf d (decimalLength v.natAbs)) (decimalLength v.natAbs) 0
      = 0 := by
    rw [digitPos_eq d _ 0 hn8 (by omega) (by omega), if_pos hal]
  have hcond : leftmostPosOf d (startPosOf d (decimalLength v.natAbs))
        ≠ digitPos d (startPosOf d (decimalLength v.natAbs)) (decimalLength v.natAbs) 0
      ∧ leftmostPosOf d (startPosOf d (decimalLength v.natAbs)) < d.numDigits := by
    rw [hlm, hlast]
    omega
  have hbus := display_neg_bus d v hv hn8 (by omega)
  rw [if_pos hcond, hlm, displayAtCharCmd_minus, hgpp] at hbus
  have hminus : minusCode d.mode
      = if d.mode = MAX7219_MODE_DECODE then 0x0A else 0b00000001 := by
    unfold minusCode SEGMENT_MINUS
    rfl
  obtain ⟨h1, h2⟩ := rendered_regs d.bus d v.natAbs hn8 (by omega)
  simp only [MAX7219_REG_DIGIT0] at h1 h2 hbus
  refine ⟨hgpp, ?_, ?_, ?_⟩
  · intro i hi
    rw [hbus, readReg_concat, if_neg (by simp only []; omega)]
    have := h1 i hi
    rw [hphys i hi] at this
    exact this
  · rw [hbus, readReg_concat, if_pos (by simp only []; omega), hminus]
  · intro i hki hin
    rw [hbus, readReg_concat, if_neg (by simp only []; omega)]
    apply h2 i (by omega)
    intro j hj
    rw [hphys j hj]
    omega

/-- C5, witness: on a 4-digit right-aligned display in hardware-decode mode,
`display(-5)` leaves `5` in register `0x01` (logical position 0), the minus
code `0x0A` in register `0x04` (logical position 3) and blank in between. -/
theorem C5_display_negative_right_witness :
    readReg (display (new 2 3 4 4) (-5)).bus 0x01 = some 5 ∧
    readReg (display (new 2 3 4 4) (-5)).bus 0x04 = some 0x0A ∧
    readReg (display (new 2 3 4 4) (-5)).bus 0x02 = some 0x0F ∧
    readReg (display (new 2 3 4 4) (-5)).bus 0x03 = some 0x0F := by
  have hlen : decimalLength (-5 : Int).natAbs = 1 := by
    norm_num [decimalLength]
  have h := C5_display_negative_right (new 2 3 4 4) (-5) (by decide) (by decide) rfl
    (by rw [hlen]; decide)
  rw [hlen] at h
  refine ⟨?_, ?_, ?_, ?_⟩
  · simpa [new, MAX7219_MODE_DECODE] using h.2.1 0 (by decide)
  · simpa [new, constrain, MAX7219_MODE_DECODE] using h.2.2.1
  · simpa [new, MAX7219_MODE_DECODE] using h.2.2.2 1 (by decide) (by decide)
  · simpa [new, MAX7219_MODE_DECODE] using h.2.2.2 2 (by decide) (by decide)

/-- C4: the code at two inputs where the minus sign lands on a rendered digit.
On a 4-digit right-aligned display, `display(-1234)` writes the digits
`1, 2, 3, 4` to registers `0x04 .. 0x01` and then the minus code `0x0A` to
register `0x04`, over the digit `1`: the display reads `-234`.  On an 8-digit
left-aligned display, `display(-12)` writes the minus code to register
`0x08`, over the digit `1`, although six positions are free. -/
theorem C4_minus_sign_overwrites_digit :
    (display (new 2 3 4 4) (-1234)).bus
      = [(1, 0x0F), (2, 0x0F), (3, 0x0F), (4, 0x0F),
         (4, 1), (3, 2), (2, 3), (1, 4), (4, 0x0A)] ∧
    readReg (display (new 2 3 4 4) (-1234)).bus 0x04 = some 0x0A ∧
    (display (setAlignment (new 2 3 4 8) MAX7219_ALIGN_LEFT) (-12)).bus
      = [(1, 0x0F), (2, 0x0F), (3, 0x0F), (4, 0x0F), (5, 0x0F), (6, 0x0F), (7, 0x0F), (8, 0x0F),
         (8, 1), (7, 2), (8, 0x0A)] ∧
    readReg (display (setAlignment (new 2 3 4 8) MAX7219_ALIGN_LEFT) (-12)).bus 0x08
      = some 0x0A := by
  decide

/-- C6: the code at `display(3.14, 2)` on the 8-digit right-aligned display
of the constructor, where the scaled value is `314`: the digits `3, 1, 4` go
to registers `0x03, 0x02, 0x01`, and the decimal-point flag (bit 7) is set on
the digit `4` of weight `10^0` (data `0x84`), not on the digit `3` of weight
`10^2`: the display reads `314.` instead of `3.14`. -/
theorem C6_decimal_point_on_wrong_digit :
    (displayDouble (new 2 3 4 8) (fun m => 314 * m / 100) 2).bus
      = [(1, 0x0F), (2, 0x0F), (3, 0x0F), (4, 0x0F), (5, 0x0F), (6, 0x0F), (7, 0x0F), (8, 0x0F),
         (3, 3), (2, 1), (1, 0x84)] ∧
    readReg (displayDouble (new 2 3 4 8) (fun m => 314 * m / 100) 2).bus 0x03 = some 3 ∧
    readReg (displayDouble (new 2 3 4 8) (fun m => 314 * m / 100) 2).bus 0x01
      = some (4 ||| 0x80) := by
  decide

/-! ## Position mapping -/

/-- C7: on a display of `n` digits with `1 ≤ n ≤ 8`, `getPhysicalPosition`
maps a logical position `P < n` to `P` under right alignment and to
`n - 1 - P` under left and under center alignment; the result is again below
`n`, and the mapping is a bijection on `0 .. n-1`: it is injective there and
every index below `n` is the image of a position below `n`. -/
theorem C7_getPhysicalPosition (d : Driver) (P : Nat) (hn8 : d.numDigits ≤ 8)
    (hP : P < d.numDigits) :
    (d.alignment = MAX7219_ALIGN_RIGHT → getPhysicalPosition d P = P) ∧
    (d.alignment = MAX7219_ALIGN_LEFT ∨ d.alignment = MAX7219_ALIGN_CENTER →
      getPhysicalPosition d P = d.numDigits - 1 - P) ∧
    getPhysicalPosition d P < d.numDigits ∧
    (∀ Q, Q < d.numDigits → getPhysicalPosition d Q = getPhysicalPosition d P → Q = P) ∧
    (∃ Q, Q < d.numDigits ∧ getPhysicalPosition d Q = P) := by
  have hval : ∀ Q, Q < d.numDigits →
      getPhysicalPosition d Q
        = if d.alignment = MAX7219_ALIGN_RIGHT then Q else d.numDigits - 1 - Q := by
    intro Q hQ
    unfold getPhysicalPosition toUint8
    by_cases hr : d.alignment = MAX7219_ALIGN_RIGHT
    · have hl : ¬ d.alignment = MAX7219_ALIGN_LEFT := by rw [hr]; decide
      rw [if_neg hl, if_pos hr, if_pos hr]
    · simp only [if_neg hr, ite_self]
      omega
  refine ⟨?_, ?_, ?_, ?_, ?_⟩
  · intro hr
    rw [hval P hP, if_pos hr]
  · intro hlc
    have hr : ¬ d.alignment = MAX7219_ALIGN_RIGHT := by
      rcases hlc with h | h <;> rw [h] <;> decide
    rw [hval P hP, if_neg hr]
  · rw [hval P hP]
    split_ifs <;> omega
  · intro Q hQ h
    rw [hval P hP, hval Q hQ] at h
    split_ifs at h <;> omega
  · by_cases hr : d.alignment = MAX7219_ALIGN_RIGHT
    · exact ⟨P, hP, by rw [hval P hP, if_pos hr]⟩
    · refine ⟨d.numDigits - 1 - P, by omega, ?_⟩
      rw [hval _ (by omega), if_neg hr]
      omega

/-- C7, witness: for 8 digits, right alignment maps logical position 0 to
physical index 0, left and center alignment map it to physical index 7. -/
theorem C7_getPhysicalPosition_witness :
    getPhysicalPosition (new 2 3 4 8) 0 = 0 ∧
    getPhysicalPosition (setAlignment (new 2 3 4 8) MAX7219_ALIGN_LEFT) 0 = 7 ∧
    getPhysicalPosition (setAlignment (new 2 3 4 8) MAX7219_ALIGN_CENTER) 0 = 7 :=
  ⟨(C7_getPhysicalPosition (new 2 3 4 8) 0 (by decide) (by decide)).1 rfl,
   (C7_getPhysicalPosition (setAlignment (new 2 3 4 8) MAX7219_ALIGN_LEFT) 0
      (by decide) (by decide)).2.1 (Or.inl rfl),
   (C7_getPhysicalPosition (setAlignment (new 2 3 4 8) MAX7219_ALIGN_CENTER) 0
      (by decide) (by decide)).2.1 (Or.inr rfl)⟩

/-! ## Text rendering -/

/-- A loop of in-range character writes sends one command per iteration. -/
theorem foldl_displayAtChar (pos chr : Nat → Nat) (l : List Nat) :
    ∀ (d : Driver), (∀ i ∈ l, pos i < d.numDigits) →
    l.foldl (fun (s : Driver) (i : Nat) => displayAtChar s (pos i) (chr i) false) d
      = emit d (l.map (fun i => displayAtCharCmd d (pos i) (chr i))) := by
  induction l with
  | nil => intro d _; simp
  | cons i l ih =>
    intro d hpos
    rw [List.foldl_cons, displayAtChar_of_lt d _ _ (hpos i (by simp)), ih]
    · simp
    · intro j hj
      simpa using hpos j (by simp [hj])

/-- The command that shows a character in software mode. -/
theorem displayAtCharCmd_software (d : Driver) (p c : Nat)
    (hm : d.mode ≠ MAX7219_MODE_DECODE) :
    displayAtCharCmd d p c
      = ((MAX7219_REG_DIGIT0 + getPhysicalPosition d p) % 256, charToSegments c) := by
  unfold displayAtCharCmd
  rw [if_neg hm]
  have := charToSegments_lt c
  congr 1
  omega

theorem getPhysicalPosition_right (d : Driver) (p : Nat)
    (hr : d.alignment = MAX7219_ALIGN_RIGHT) : getPhysicalPosition d p = p := by
  have hl : ¬ d.alignment = MAX7219_ALIGN_LEFT := by rw [hr]; decide
  unfold getPhysicalPosition
  rw [if_neg hl, if_pos hr]

theorem getPhysicalPosition_not_right (d : Driver) (p : Nat)
    (hr : ¬ d.alignment = MAX7219_ALIGN_RIGHT) (hp : p < d.numDigits)
    (hn : d.numDigits ≤ 8) : getPhysicalPosition d p = d.numDigits - 1 - p := by
  unfold getPhysicalPosition toUint8
  simp only [if_neg hr, ite_self]
  omega

/-- The commands of text rendering in software mode for a text that fits the
display: `clear`, then character `i` at physical index `first - i`. -/
theorem displayTextInternal_fits_bus (d : Driver) (text : List Nat)
    (hn8 : d.numDigits ≤ 8) (hm : d.mode ≠ MAX7219_MODE_DECODE)
    (hlen : text.length ≤ d.numDigits) :
    (displayTextInternal d text).bus
      = d.bus ++ (clearCmds d ++ (List.range text.length).map (fun i =>
          (MAX7219_REG_DIGIT0 +
            ((if d.alignment = MAX7219_ALIGN_RIGHT then text.length - 1
              else if d.alignment = MAX7219_ALIGN_CENTER then
                d.numDigits - 1 - (d.numDigits - text.length) / 2
              else d.numDigits - 1) - i),
           charToSegments (text.getD i 0)))) := by
  unfold displayTextInternal
  simp only [clear_eq_emit, emit_alignment, emit_numDigits]
  by_cases hr : d.alignment = MAX7219_ALIGN_RIGHT
  · simp only [if_pos hr, if_pos hlen, Nat.min_eq_left hlen]
    rw [foldl_displayAtChar (fun i => toUint8 ((text.length : Int) - 1 - (i : Int)))
      (fun i => text.getD i 0)]
    · simp only [emit_emit, emit_bus, displayAtCharCmd_emit]
      congr 2
      apply List.map_congr_left
      intro i hi
      have hi' : i < text.length := by simpa using hi
      rw [displayAtCharCmd_software d _ _ hm, getPhysicalPosition_right d _ hr]
      congr 1
      simp only [toUint8, MAX7219_REG_DIGIT0]
      omega
    · intro i hi
      have hi' : i < text.length := by simpa using hi
      simp only [toUint8, emit_numDigits]
      omega
  · by_cases hc : d.alignment = MAX7219_ALIGN_CENTER
    · simp only [if_neg hr, if_pos hc, if_pos hlen, Nat.min_eq_left hlen]
      rw [foldl_displayAtChar
        (fun i => toUint8 ((((d.numDigits - text.length) / 2 : Nat) : Int) + (i : Int)))
        (fun i => text.getD (0 + i) 0)]
      · simp only [emit_emit, emit_bus, displayAtCharCmd_emit]
        congr 2
        apply List.map_congr_left
        intro i hi
        have hi' : i < text.length := by simpa using hi
        have hpos : toUint8 ((((d.numDigits - text.length) / 2 : Nat) : Int) + (i : Int))
            = (d.numDigits - text.length) / 2 + i := by
          simp only [toUint8]
          omega
        rw [displayAtCharCmd_software d _ _ hm, hpos,
          getPhysicalPosition_not_right d _ hr (by omega) hn8, Nat.zero_add]
        congr 1
        simp only [MAX7219_REG_DIGIT0]
        omega
      · intro i hi
        have hi' : i < text.length := by simpa using hi
        simp only [toUint8, emit_numDigits]
        omega
    · simp only [if_neg hr, if_neg hc, Nat.min_eq_right hlen]
      rw [foldl_displayAtChar (fun i => toUint8 ((0 : Int) + (i : Int)))
        (fun i => text.getD (0 + i) 0)]
      · simp only [emit_emit, emit_bus, displayAtCharCmd_emit]
        congr 2
        apply List.map_congr_left
        intro i hi
        have hi' : i < text.length := by simpa using hi
        have hpos : toUint8 ((0 : Int) + (i : Int)) = i := by
          simp only [toUint8]
          omega
        rw [displayAtCharCmd_software d _ _ hm, hpos,
          getPhysicalPosition_not_right d _ hr (by omega) hn8, Nat.zero_add]
        congr 1
        simp only [MAX7219_REG_DIGIT0]
        omega
      · intro i hi
        have hi' : i < text.length := by simpa using hi
        simp only [toUint8, emit_numDigits]
        omega

/-- The commands of text rendering in software mode for a text longer than
the display: `clear`, then one character per position, physical index
`n - 1 - i` showing character `offset + i`, where `offset` is `len - n` under
right and center alignment and `0` otherwise. -/
theorem displayTextInternal_long_bus (d : Driver) (text : List Nat)
    (hn8 : d.numDigits ≤ 8) (hm : d.mode ≠ MAX7219_MODE_DECODE)
    (hlen : d.numDigits < text.length) :
    (displayTextInternal d text).bus
      = d.bus ++ (clearCmds d ++ (List.range d.numDigits).map (fun i =>
          (MAX7219_REG_DIGIT0 + (d.numDigits - 1 - i),
           charToSegments (text.getD
             ((if d.alignment = MAX7219_ALIGN_RIGHT ∨ d.alignment = MAX7219_ALIGN_CENTER
               then text.length - d.numDigits else 0) + i) 0)))) := by
  have hnot : ¬ text.length ≤ d.numDigits := by omega
  unfold displayTextInternal
  simp only [clear_eq_emit, emit_alignment, emit_numDigits]
  by_cases hr : d.alignment = MAX7219_ALIGN_RIGHT
  · have hor : d.alignment = MAX7219_ALIGN_RIGHT ∨ d.alignment = MAX7219_ALIGN_CENTER :=
      Or.inl hr
    simp only [if_pos hr, if_neg hnot, if_pos hor]
    rw [foldl_displayAtChar (fun i => toUint8 ((d.numDigits : Int) - 1 - (i : Int)))
      (fun i => text.getD (text.length - d.numDigits + i) 0)]
    · simp only [emit_emit, emit_bus, displayAtCharCmd_emit]
      congr 2
      apply List.map_congr_left
      intro i hi
      have hi' : i < d.numDigits := by simpa using hi
      rw [displayAtCharCmd_software d _ _ hm, getPhysicalPosition_right d _ hr]
      congr 1
      simp only [toUint8, MAX7219_REG_DIGIT0]
      omega
    · intro i hi
      have hi' : i < d.numDigits := by simpa using hi
      simp only [toUint8, emit_numDigits]
      omega
  · by_cases hc : d.alignment = MAX7219_ALIGN_CENTER
    · have hor : d.alignment = MAX7219_ALIGN_RIGHT ∨ d.alignment = MAX7219_ALIGN_CENTER :=
        Or.inr hc
      simp only [if_neg hr, if_pos hc, if_neg hnot, if_pos hor]
      rw [foldl_displayAtChar (fun i => toUint8 ((0 : Int) + (i : Int)))
        (fun i => text.getD (text.length - d.numDigits + i) 0)]
      · simp only [emit_emit, emit_bus, displayAtCharCmd_emit]
        congr 2
        apply List.map_congr_left
        intro i hi
        have hi' : i < d.numDigits := by simpa using hi
        have hpos : toUint8 ((0 : Int) + (i : Int)) = i := by
          simp only [toUint8]
          omega
        rw [displayAtCharCmd_software d _ _ hm, hpos,
          getPhysicalPosition_not_right d _ (by rw [hc]; decide) hi' hn8]
        congr 1
        simp only [MAX7219_REG_DIGIT0]
        omega
      · intro i hi
        have hi' : i < d.numDigits := by simpa using hi
        simp only [toUint8, emit_numDigits]
        omega
    · have hor : ¬ (d.alignment = MAX7219_ALIGN_RIGHT ∨ d.alignment = MAX7219_ALIGN_CENTER) := by
        rintro (h | h)
        · exact hr h
        · exact hc h
      simp only [if_neg hr, if_neg hc, if_neg hor, Nat.min_eq_left (le_of_lt hlen)]
      rw [foldl_displayAtChar (fun i => toUint8 ((0 : Int) + (i : Int)))
        (fun i => text.getD (0 + i) 0)]
      · simp only [emit_emit, emit_bus, displayAtCharCmd_emit]
        congr 2
        apply List.map_congr_left
        intro i hi
        have hi' : i < d.numDigits := by simpa using hi
        have hpos : toUint8 ((0 : Int) + (i : Int)) = i := by
          simp only [toUint8]
          omega
        rw [displayAtCharCmd_software d _ _ hm, hpos,
          getPhysicalPosition_not_right d _ hr hi' hn8]
        congr 1
        simp only [MAX7219_REG_DIGIT0]
        omega
      · intro i hi
        have hi' : i < d.numDigits := by simpa using hi
        simp only [toUint8, emit_numDigits]
        omega

theorem displayText_software (atol : List Nat → Int) (d : Driver) (text : List Nat)
    (hm : d.mode ≠ MAX7219_MODE_DECODE) :
    displayText atol d text = displayTextInternal d text := by
  unfold displayText
  rw [if_neg hm]

/-- C8: in software mode, on a display of `n` digits with `1 ≤ n ≤ 8`, for
every alignment and every text of length `L ≤ n`, `display(text)` shows the
glyphs of the characters in reading order in one contiguous span: character
`i` is read at physical index `first - i`, one higher than character `i + 1`,
and the other `n - L` digit registers read blank (`0x00`).  Under right
alignment the last character is at physical index `0`; under left alignment
the first character is at logical position `0`, physical index `n - 1`; under
center alignment the first character is at logical position `(n - L) / 2`. -/
theorem C8_display_text_fits (atol : List Nat → Int) (d : Driver) (text : List Nat)
    (hn1 : 1 ≤ d.numDigits) (hn8 : d.numDigits ≤ 8)
    (hmode : d.mode ≠ MAX7219_MODE_DECODE)
    (hlen : text.length ≤ d.numDigits) (first : Nat)
    (hfirst : first = if d.alignment = MAX7219_ALIGN_RIGHT then text.length - 1
        else if d.alignment = MAX7219_ALIGN_CENTER then
          d.numDigits - 1 - (d.numDigits - text.length) / 2
        else d.numDigits - 1) :
    (∀ i, i < text.length →
      readReg (displayText atol d text).bus (0x01 + (first - i))
        = some (charToSegments (text.getD i 0))) ∧
    (∀ i, i + 1 < text.length → first - i = (first - (i + 1)) + 1) ∧
    (∀ p, p < d.numDigits → (first < p ∨ p + text.length ≤ first) →
      readReg (displayText atol d text).bus (0x01 + p) = some 0x00) ∧
    (d.alignment = MAX7219_ALIGN_RIGHT → first - (text.length - 1) = 0) ∧
    (d.alignment = MAX7219_ALIGN_LEFT →
      first = getPhysicalPosition d 0 ∧ first = d.numDigits - 1) ∧
    (d.alignment = MAX7219_ALIGN_CENTER →
      first = getPhysicalPosition d ((d.numDigits - text.length) / 2)) := by
  have hbus := displayTextInternal_fits_bus d text hn8 hmode hlen
  rw [← hfirst] at hbus
  rw [displayText_software atol d text hmode, hbus]
  have hge : text.length - 1 ≤ first := by
    rw [hfirst]
    split_ifs <;> omega
  have hlt : first < d.numDigits := by
    rw [hfirst]
    split_ifs <;> omega
  have hblank : blankCode d.mode = 0x00 := by
    unfold blankCode
    rw [if_neg hmode]
  refine ⟨?_, ?_, ?_, ?_, ?_, ?_⟩
  · intro i hi
    have := readReg_written d.bus d (List.range text.length)
      (fun j => MAX7219_REG_DIGIT0 + (first - j)) (fun j => charToSegments (text.getD j 0))
      i (by simpa using hi)
      (by
        intro j hj hji
        have hj' : j < text.length := by simpa using hj
        simp only [MAX7219_REG_DIGIT0] at hji
        omega)
    simpa [MAX7219_REG_DIGIT0] using this
  · intro i hi
    omega
  · intro p hp hout
    have := readReg_not_written d.bus d (List.range text.length)
      (fun j => MAX7219_REG_DIGIT0 + (first - j)) (fun j => charToSegments (text.getD j 0))
      p hn8 hp
      (by
        intro j hj
        have hj' : j < text.length := by simpa using hj
        simp only [MAX7219_REG_DIGIT0]
        omega)
    rw [hblank] at this
    simpa [MAX7219_REG_DIGIT0] using this
  · intro hr
    rw [hfirst, if_pos hr]
    omega
  · intro hl
    have hr : ¬ d.alignment = MAX7219_ALIGN_RIGHT := by rw [hl]; decide
    have hc : ¬ d.alignment = MAX7219_ALIGN_CENTER := by rw [hl]; decide
    rw [getPhysicalPosition_not_right d 0 hr (by omega) hn8, hfirst, if_neg hr, if_neg hc]
    omega
  · intro hc
    have hr : ¬ d.alignment = MAX7219_ALIGN_RIGHT := by rw [hc]; decide
    rw [getPhysicalPosition_not_right d _ hr (by omega) hn8, hfirst, if_neg hr, if_pos hc]

/-- C8, witness: in software mode on a 4-digit right-aligned display, the
text `Hi` leaves the glyph of `H` in register `0x02`, the glyph of `i` in
register `0x01`, and blank in registers `0x03` and `0x04`. -/
theorem C8_display_text_fits_witness :
    readReg (displayText (fun _ => 0) (setMode (new 2 3 4 4) MAX7219_MODE_NO_DECODE)
        ['H'.toNat, 'i'.toNat]).bus 0x02 = some 0b00110111 ∧
    readReg (displayText (fun _ => 0) (setMode (new 2 3 4 4) MAX7219_MODE_NO_DECODE)
        ['H'.toNat, 'i'.toNat]).bus 0x01 = some 0b00000110 ∧
    readReg (displayText (fun _ => 0) (setMode (new 2 3 4 4) MAX7219_MODE_NO_DECODE)
        ['H'.toNat, 'i'.toNat]).bus 0x03 = some 0x00 ∧
    readReg (displayText (fun _ => 0) (setMode (new 2 3 4 4) MAX7219_MODE_NO_DECODE)
        ['H'.toNat, 'i'.toNat]).bus 0x04 = some 0x00 := by
  have h := C8_display_text_fits (fun _ => 0) (setMode (new 2 3 4 4) MAX7219_MODE_NO_DECODE)
    ['H'.toNat, 'i'.toNat] (by decide) (by decide) (by decide) (by decide) 1 (by decide)
  exact ⟨h.1 0 (by decide), h.1 1 (by decide), h.2.2.1 2 (by decide) (by decide),
    h.2.2.1 3 (by decide) (by decide)⟩

/-- C9, counterexample: in software mode on a 2-digit display, the text `ABC`
under left alignment leaves the glyph of `A`, the first character, in the
leftmost register `0x02`, not the glyph of `B`, the first character of the
tail `BC`; under right alignment that register reads the glyph of `B`, so
the register contents are not the same under the two alignments. -/
theorem C9_left_alignment_keeps_head :
    readReg (displayText (fun _ => 0)
        (setAlignment (setMode (new 2 3 4 2) MAX7219_MODE_NO_DECODE) MAX7219_ALIGN_LEFT)
        ['A'.toNat, 'B'.toNat, 'C'.toNat]).bus 0x02
      = some (charToSegments 'A'.toNat) ∧
    readReg (displayText (fun _ => 0)
        (setAlignment (setMode (new 2 3 4 2) MAX7219_MODE_NO_DECODE) MAX7219_ALIGN_LEFT)
        ['A'.toNat, 'B'.toNat, 'C'.toNat]).bus 0x02
      ≠ some (charToSegments 'B'.toNat) ∧
    readReg (displayText (fun _ => 0)
        (setAlignment (setMode (new 2 3 4 2) MAX7219_MODE_NO_DECODE) MAX7219_ALIGN_LEFT)
        ['A'.toNat, 'B'.toNat, 'C'.toNat]).bus 0x02
      ≠ readReg (displayText (fun _ => 0)
        (setAlignment (setMode (new 2 3 4 2) MAX7219_MODE_NO_DECODE) MAX7219_ALIGN_RIGHT)
        ['A'.toNat, 'B'.toNat, 'C'.toNat]).bus 0x02 := by
  decide

/-- C9, amended: in software mode, on a display of `n` digits with
`1 ≤ n ≤ 8` and for a text of length `L > n`, `display(text)` fills all `n`
positions in reading order, position `i` from the left being physical index
`n - 1 - i`: under right and under center alignment it shows the last `n`
characters, `text[L-n+i]` at position `i`, with the same register contents
for these two alignments; under left alignment it shows the first `n`
characters, `text[i]` at position `i`. -/
theorem C9_display_text_long (atol : List Nat → Int) (d : Driver) (text : List Nat)
    (hn8 : d.numDigits ≤ 8) (hmode : d.mode ≠ MAX7219_MODE_DECODE)
    (hlen : d.numDigits < text.length) :
    (d.alignment = MAX7219_ALIGN_RIGHT ∨ d.alignment = MAX7219_ALIGN_CENTER →
      ∀ i, i < d.numDigits →
        readReg (displayText atol d text).bus (0x01 + (d.numDigits - 1 - i))
          = some (charToSegments (text.getD (text.length - d.numDigits + i) 0))) ∧
    (d.alignment = MAX7219_ALIGN_LEFT →
      ∀ i, i < d.numDigits →
        readReg (displayText atol d text).bus (0x01 + (d.numDigits - 1 - i))
          = some (charToSegments (text.getD i 0))) := by
  have hbus := displayTextInternal_long_bus d text hn8 hmode hlen
  rw [displayText_software atol d text hmode, hbus]
  have key : ∀ (off : Nat) (i : Nat), i < d.numDigits →
      readReg (d.bus ++ (clearCmds d ++ (List.range d.numDigits).map (fun j =>
          (MAX7219_REG_DIGIT0 + (d.numDigits - 1 - j),
           charToSegments (text.getD (off + j) 0)))))
        (0x01 + (d.numDigits - 1 - i))
        = some (charToSegments (text.getD (off + i) 0)) := by
    intro off i hi
    have := readReg_written d.bus d (List.range d.numDigits)
      (fun j => MAX7219_REG_DIGIT0 + (d.numDigits - 1 - j))
      (fun j => charToSegments (text.getD (off + j) 0))
      i (by simpa using hi)
      (by
        intro j hj hji
        have hj' : j < d.numDigits := by simpa using hj
        simp only [MAX7219_REG_DIGIT0] at hji
        omega)
    simpa [MAX7219_REG_DIGIT0] using this
  constructor
  · intro hrc i hi
    rw [if_pos hrc]
    exact key _ i hi
  · intro hl i hi
    have hrc : ¬ (d.alignment = MAX7219_ALIGN_RIGHT ∨ d.alignment = MAX7219_ALIGN_CENTER) := by
      rw [hl]; decide
    rw [if_neg hrc]
    have := key 0 i hi
    simpa using this

/-- C9, witness of the amended claim: in software mode on a 2-digit
right-aligned display, the text `ABC` leaves the glyphs of `B` and `C` in
registers `0x02` and `0x01`. -/
theorem C9_display_text_long_witness :
    readReg (displayText (fun _ => 0) (setMode (new 2 3 4 2) MAX7219_MODE_NO_DECODE)
        ['A'.toNat, 'B'.toNat, 'C'.toNat]).bus 0x02 = some (charToSegments 'B'.toNat) ∧
    readReg (displayText (fun _ => 0) (setMode (new 2 3 4 2) MAX7219_MODE_NO_DECODE)
        ['A'.toNat, 'B'.toNat, 'C'.toNat]).bus 0x01 = some (charToSegments 'C'.toNat) := by
  have h := (C9_display_text_long (fun _ => 0) (setMode (new 2 3 4 2) MAX7219_MODE_NO_DECODE)
    ['A'.toNat, 'B'.toNat, 'C'.toNat] (by decide) (by decide) (by decide)).1
    (Or.inl (by decide))
  exact ⟨h 0 (by decide), h 1 (by decide)⟩

/-! ## Time rendering -/

/-- The command that shows a decimal digit with the decimal point. -/
theorem displayAtCmd_digit_dp (d : Driver) (p x : Nat) (hx : x ≤ 9) :
    displayAtCmd d p x true
      = ((MAX7219_REG_DIGIT0 + getPhysicalPosition d p) % 256, digitCode d.mode x ||| 0x80) := by
  unfold displayAtCmd digitCode
  have hc : constrain x 0 9 = x := by
    unfold constrain
    rw [if_neg (by omega), if_neg (by omega)]
  have hs := digitToSegments_lt x
  by_cases hm : d.mode = MAX7219_MODE_DECODE
  · simp only [hm, if_true, hc]
    congr 1
    have : x ||| 0x80 < 2 ^ 8 := Nat.or_lt_two_pow (by omega) (by norm_num)
    omega
  · simp only [hm, if_false, hx, if_true, SEGMENT_DOT]
    congr 1
    have : digitToSegments x ||| 0x80 < 2 ^ 8 := Nat.or_lt_two_pow (by omega) (by norm_num)
    omega

theorem digitCode_lt (mode x : Nat) (hx : x ≤ 9) : digitCode mode x < 0x80 := by
  unfold digitCode
  have := digitToSegments_lt x
  split_ifs <;> omega

theorem constrain_zero (x hi : Nat) : constrain x 0 hi = min x hi := by
  unfold constrain
  rw [if_neg (by omega)]
  split_ifs <;> omega

/-- The start position of a time field that fits the display. -/
theorem timeStartPos_eq (d : Driver) (width : Nat) (hn8 : d.numDigits ≤ 8)
    (hw : width ≤ d.numDigits) :
    timeStartPos d width
      = if d.alignment = MAX7219_ALIGN_LEFT then 0
        else if d.alignment = MAX7219_ALIGN_CENTER then (d.numDigits - width) / 2
        else d.numDigits - width := by
  unfold timeStartPos toUint8
  by_cases hl : d.alignment = MAX7219_ALIGN_LEFT
  · simp only [if_pos hl]
  · by_cases hc : d.alignment = MAX7219_ALIGN_CENTER
    · simp only [if_neg hl, if_pos hc]
      rw [Int.tdiv_eq_ediv (by omega) (by norm_num)]
      omega
    · simp only [if_neg hl, if_neg hc]
      omega

theorem timeStartPos_le (d : Driver) (width : Nat) (hn8 : d.numDigits ≤ 8)
    (hw : width ≤ d.numDigits) : timeStartPos d width + width ≤ d.numDigits := by
  rw [timeStartPos_eq d width hn8 hw]
  split_ifs <;> omega

/-- An in-range digit write at logical position `start + j`. -/
theorem displayAt_time (d : Driver) (start j x : Nat) (dp : Bool)
    (hp : start + j < d.numDigits) (hn8 : d.numDigits ≤ 8) (hx : x ≤ 9) :
    displayAt d (toUint8 ((start : Int) + (j : Int))) x dp
      = emit d [(0x01 + getPhysicalPosition d (start + j),
          if dp then digitCode d.mode x ||| 0x80 else digitCode d.mode x)] := by
  have hpos : toUint8 ((start : Int) + (j : Int)) = start + j := by
    unfold toUint8
    omega
  have hphys : getPhysicalPosition d (start + j) < d.numDigits := by
    unfold getPhysicalPosition toUint8
    split_ifs <;> omega
  rw [hpos, displayAt_of_lt d _ _ _ hp]
  cases dp
  · rw [displayAtCmd_digit d _ _ hx]
    simp only [MAX7219_REG_DIGIT0, Bool.false_eq_true, if_false]
    congr 3
    omega
  · rw [displayAtCmd_digit_dp d _ _ hx]
    simp only [MAX7219_REG_DIGIT0, if_true]
    congr 3
    omega

/-- C10: on a display of `n ≥ 4` digits (`n ≤ 8`), for every alignment, either
decode mode and all `h`, `m`, `displayTime(h, m)` sends exactly four digit
writes, to the consecutive logical positions `start .. start + 3`, with the
digit codes of `H / 10`, `H % 10`, `M / 10`, `M % 10` where `H = min(h, 99)`
and `M = min(m, 59)`; the decimal-point flag `0x80` is set on the hours-units
digit and on no other, every digit code being below `0x80`.  The form with
seconds does the same with six digit writes on `n ≥ 6` digits,
`S = min(s, 59)`, and the flag on the hours-units and minutes-units digits. -/
theorem C10_displayTime (d : Driver) (h m s : Nat) (hn8 : d.numDigits ≤ 8) :
    (4 ≤ d.numDigits →
      timeStartPos d 4 + 4 ≤ d.numDigits ∧
      (displayTime d h m).bus = d.bus ++
        [(0x01 + getPhysicalPosition d (timeStartPos d 4 + 0), digitCode d.mode (min h 99 / 10)),
         (0x01 + getPhysicalPosition d (timeStartPos d 4 + 1),
            digitCode d.mode (min h 99 % 10) ||| 0x80),
         (0x01 + getPhysicalPosition d (timeStartPos d 4 + 2), digitCode d.mode (min m 59 / 10)),
         (0x01 + getPhysicalPosition d (timeStartPos d 4 + 3),
            digitCode d.mode (min m 59 % 10))]) ∧
    (6 ≤ d.numDigits →
      timeStartPos d 6 + 6 ≤ d.numDigits ∧
      (displayTimeSeconds d h m s).bus = d.bus ++
        [(0x01 + getPhysicalPosition d (timeStartPos d 6 + 0), digitCode d.mode (min h 99 / 10)),
         (0x01 + getPhysicalPosition d (timeStartPos d 6 + 1),
            digitCode d.mode (min h 99 % 10) ||| 0x80),
         (0x01 + getPhysicalPosition d (timeStartPos d 6 + 2), digitCode d.mode (min m 59 / 10)),
         (0x01 + getPhysicalPosition d (timeStartPos d 6 + 3),
            digitCode d.mode (min m 59 % 10) ||| 0x80),
         (0x01 + getPhysicalPosition d (timeStartPos d 6 + 4), digitCode d.mode (min s 59 / 10)),
         (0x01 + getPhysicalPosition d (timeStartPos d 6 + 5),
            digitCode d.mode (min s 59 % 10))]) ∧
    (∀ x, x ≤ 9 → digitCode d.mode x < 0x80 ∧
      digitCode d.mode x = if d.mode = MAX7219_MODE_DECODE then x else digitToSegments x) := by
  refine ⟨?_, ?_, ?_⟩
  · intro h4
    have hle := timeStartPos_le d 4 hn8 h4
    refine ⟨hle, ?_⟩
    unfold displayTime
    rw [if_neg (by omega)]
    simp only [constrain_zero]
    have c0 : ((timeStartPos d 4 : Nat) : Int) + 0 = ((timeStartPos d 4 : Nat) : Int) + ((0 : Nat) : Int) := rfl
    have c1 : ((timeStartPos d 4 : Nat) : Int) + 1 = ((timeStartPos d 4 : Nat) : Int) + ((1 : Nat) : Int) := rfl
    have c2 : ((timeStartPos d 4 : Nat) : Int) + 2 = ((timeStartPos d 4 : Nat) : Int) + ((2 : Nat) : Int) := rfl
    have c3 : ((timeStartPos d 4 : Nat) : Int) + 3 = ((timeStartPos d 4 : Nat) : Int) + ((3 : Nat) : Int) := rfl
    rw [c0, c1, c2, c3]
    rw [displayAt_time d _ 0 _ false (by omega) hn8 (by omega)]
    rw [displayAt_time (emit d _) _ 1 _ true (by simp; omega) (by simpa using hn8) (by omega)]
    rw [displayAt_time (emit (emit d _) _) _ 2 _ false (by simp; omega) (by simpa using hn8)
      (by omega)]
    rw [displayAt_time (emit (emit (emit d _) _) _) _ 3 _ false (by simp; omega)
      (by simpa using hn8) (by omega)]
    simp
  · intro h6
    have hle := timeStartPos_le d 6 hn8 h6
    refine ⟨hle, ?_⟩
    unfold displayTimeSeconds
    rw [if_neg (by omega)]
    simp only [constrain_zero]
    have c0 : ((timeStartPos d 6 : Nat) : Int) + 0 = ((timeStartPos d 6 : Nat) : Int) + ((0 : Nat) : Int) := rfl
    have c1 : ((timeStartPos d 6 : Nat) : Int) + 1 = ((timeStartPos d 6 : Nat) : Int) + ((1 : Nat) : Int) := rfl
    have c2 : ((timeStartPos d 6 : Nat) : Int) + 2 = ((timeStartPos d 6 : Nat) : Int) + ((2 : Nat) : Int) := rfl
    have c3 : ((timeStartPos d 6 : Nat) : Int) + 3 = ((timeStartPos d 6 : Nat) : Int) + ((3 : Nat) : Int) := rfl
    have c4 : ((timeStartPos d 6 : Nat) : Int) + 4 = ((timeStartPos d 6 : Nat) : Int) + ((4 : Nat) : Int) := rfl
    have c5 : ((timeStartPos d 6 : Nat) : Int) + 5 = ((timeStartPos d 6 : Nat) : Int) + ((5 : Nat) : Int) := rfl
    rw [c0, c1, c2, c3, c4, c5]
    rw [displayAt_time d _ 0 _ false (by omega) hn8 (by omega)]
    rw [displayAt_time (emit d _) _ 1 _ true (by simp; omega) (by simpa using hn8) (by omega)]
    rw [displayAt_time (emit (emit d _) _) _ 2 _ false (by simp; omega) (by simpa using hn8)
      (by omega)]
    rw [displayAt_time (emit (emit (emit d _) _) _) _ 3 _ true (by simp; omega)
      (by simpa using hn8) (by omega)]
    rw [displayAt_time (emit (emit (emit (emit d _) _) _) _) _ 4 _ false (by simp; omega)
      (by simpa using hn8) (by omega)]
    rw [displayAt_time (emit (emit (emit (emit (emit d _) _) _) _) _) _ 5 _ false
      (by simp; omega) (by simpa using hn8) (by omega)]
    simp
  · intro x hx
    exact ⟨digitCode_lt d.mode x hx, rfl⟩

/-- C10, witness: `displayTime(9, 5)` on a 4-digit right-aligned display in
hardware-decode mode sends `0`, `9` with the decimal point, `0`, `5` to
logical positions `0 .. 3`. -/
theorem C10_displayTime_witness :
    (displayTime (new 2 3 4 4) 9 5).bus
      = [(0x01, 0), (0x02, 9 ||| 0x80), (0x03, 0), (0x04, 5)] :=
  ((C10_displayTime (new 2 3 4 4) 9 5 0 (by decide)).1 (by decide)).2

/-! ## Time and hexadecimal rendering under right alignment -/

/-- C11: the code at `displayTime(12, 34)` under right alignment, the default
of the constructor.  On 4 digits the start position is `0` and the hours-tens
digit `1` goes to logical position `0`, register `0x01`, while the
minutes-units digit `4` goes to logical position `3`, register `0x04`; on 8
digits the start position is `4` and the field occupies registers
`0x05 .. 0x08` in the same order.  The hours-tens digit is at the lowest
physical index of the field, where integer rendering of `1234` on the same
display puts the digit `4`: the time reads mirrored.  Under left alignment
the hours-tens digit is at the highest physical index. -/
theorem C11_time_mirrored_under_right_alignment :
    timeStartPos (new 2 3 4 4) 4 = 0 ∧
    (displayTime (new 2 3 4 4) 12 34).bus = [(1, 1), (2, 2 ||| 0x80), (3, 3), (4, 4)] ∧
    timeStartPos (new 2 3 4 8) 4 = 4 ∧
    (displayTime (new 2 3 4 8) 12 34).bus = [(5, 1), (6, 2 ||| 0x80), (7, 3), (8, 4)] ∧
    (display (new 2 3 4 4) 1234).bus
      = [(1, 0x0F), (2, 0x0F), (3, 0x0F), (4, 0x0F), (4, 1), (3, 2), (2, 3), (1, 4)] ∧
    (displayTime (setAlignment (new 2 3 4 4) MAX7219_ALIGN_LEFT) 12 34).bus
      = [(4, 1), (3, 2 ||| 0x80), (2, 3), (1, 4)] := by
  decide

/-- C12: the code at `displayHex(0x1A)` on the 8-digit right-aligned display
of the constructor: after the switch to software mode and its `clear`, the
nibble `A` of weight `16^0` is written to register `0x08`, physical index 7,
and the nibble `1` of weight `16^1` to register `0x07`; registers
`0x06 .. 0x01` are blanked.  The least-significant nibble is at the highest
physical index.  Under left alignment the same call writes `A` to register
`0x01` and `1` to register `0x02`. -/
theorem C12_hex_mirrored_under_right_alignment :
    (displayHex (new 2 3 4 8) 0x1A).bus
      = [(9, 0), (1, 0), (2, 0), (3, 0), (4, 0), (5, 0), (6, 0), (7, 0), (8, 0),
         (8, 0b01110111), (7, 0b00110000),
         (6, 0), (5, 0), (4, 0), (3, 0), (2, 0), (1, 0)] ∧
    readReg (displayHex (new 2 3 4 8) 0x1A).bus (0x01 + 0) = some 0x00 ∧
    readReg (displayHex (new 2 3 4 8) 0x1A).bus (0x01 + 7) = some 0b01110111 ∧
    readReg (displayHex (setAlignment (new 2 3 4 8) MAX7219_ALIGN_LEFT) 0x1A).bus (0x01 + 0)
      = some 0b01110111 ∧
    readReg (displayHex (setAlignment (new 2 3 4 8) MAX7219_ALIGN_LEFT) 0x1A).bus (0x01 + 1)
      = some 0b00110000 := by
  decide

/-! ## No-ops -/

/-- C17: for a position at or beyond the digit count, each single-position
write, `displayAt` with a value, `displayAt` with a character, `setSegments`
and `setRawDigit`, returns the driver unchanged: no command is sent and the
configuration is the same. -/
theorem C17_out_of_range_position (d : Driver) (position value character segments : Nat)
    (dp : Bool) (h : d.numDigits ≤ position) :
    displayAt d position value dp = d ∧
    displayAtChar d position character dp = d ∧
    setSegments d position segments = d ∧
    setRawDigit d position value dp = d := by
  refine ⟨?_, ?_, ?_, ?_⟩
  · unfold displayAt
    rw [if_pos h]
  · unfold displayAtChar
    rw [if_pos h]
  · unfold setSegments
    rw [if_pos h]
  · unfold setRawDigit
    rw [if_pos h]

/-- C17, witness: on the 4-digit display of the constructor, writes at
position 4 leave the driver as it was. -/
theorem C17_out_of_range_position_witness :
    displayAt (new 2 3 4 4) 4 7 true = new 2 3 4 4 ∧
    displayAtChar (new 2 3 4 4) 4 'A'.toNat false = new 2 3 4 4 ∧
    setSegments (new 2 3 4 4) 4 0xFF = new 2 3 4 4 ∧
    setRawDigit (new 2 3 4 4) 4 7 true = new 2 3 4 4 :=
  ⟨(C17_out_of_range_position (new 2 3 4 4) 4 7 0 0 true (by decide)).1,
   (C17_out_of_range_position (new 2 3 4 4) 4 0 'A'.toNat 0 false (by decide)).2.1,
   (C17_out_of_range_position (new 2 3 4 4) 4 0 0 0xFF false (by decide)).2.2.1,
   (C17_out_of_range_position (new 2 3 4 4) 4 7 0 0 true (by decide)).2.2.2⟩

/-- C18: a fixed-format renderer on a display with too few digits returns the
driver unchanged, for all arguments: `displayTime(h, m)` below 4 digits,
`displayTime(h, m, s)` below 6 digits and `displayBinary(v)` below 8 digits
send no command and change no configuration. -/
theorem C18_too_few_digits (d : Driver) (h m s v : Nat) :
    (d.numDigits < 4 → displayTime d h m = d) ∧
    (d.numDigits < 6 → displayTimeSeconds d h m s = d) ∧
    (d.numDigits < 8 → displayBinary d v = d) := by
  refine ⟨?_, ?_, ?_⟩
  · intro hn
    unfold displayTime
    rw [if_pos hn]
  · intro hn
    unfold displayTimeSeconds
    rw [if_pos hn]
  · intro hn
    unfold displayBinary
    rw [if_pos hn]

/-- C18, witness: on a 3-digit display the three renderers do nothing. -/
theorem C18_too_few_digits_witness :
    displayTime (new 2 3 4 3) 12 34 = new 2 3 4 3 ∧
    displayTimeSeconds (new 2 3 4 3) 12 34 56 = new 2 3 4 3 ∧
    displayBinary (new 2 3 4 3) 0xA5 = new 2 3 4 3 :=
  ⟨(C18_too_few_digits (new 2 3 4 3) 12 34 56 0xA5).1 (by decide),
   (C18_too_few_digits (new 2 3 4 3) 12 34 56 0xA5).2.1 (by decide),
   (C18_too_few_digits (new 2 3 4 3) 12 34 56 0xA5).2.2 (by decide)⟩

/-- C19: `countUp(from, to, interval)` with `from > to` and
`countDown(from, to, interval)` with `from < to` return at once with the
driver unchanged, whatever the bound on the iterations: no command is sent
and no state changes. -/
theorem C19_inconsistent_count_direction (fuel : Nat) (d : Driver) (fromVal toVal : Int)
    (delayMs : Nat) :
    (fromVal > toVal → countUp fuel d fromVal toVal delayMs = some d) ∧
    (fromVal < toVal → countDown fuel d fromVal toVal delayMs = some d) := by
  constructor
  · intro h
    unfold countUp
    rw [if_pos h]
  · intro h
    unfold countDown
    rw [if_pos h]

/-- C19, witness: `countUp(5, 3)` and `countDown(3, 5)` leave the driver as
it was, already with no iteration allowed. -/
theorem C19_inconsistent_count_direction_witness :
    countUp 0 (new 2 3 4 8) 5 3 100 = some (new 2 3 4 8) ∧
    countDown 0 (new 2 3 4 8) 3 5 100 = some (new 2 3 4 8) :=
  ⟨(C19_inconsistent_count_direction 0 (new 2 3 4 8) 5 3 100).1 (by decide),
   (C19_inconsistent_count_direction 0 (new 2 3 4 8) 3 5 100).2 (by decide)⟩

/-! ## Mode, clearing and clamping -/

/-- The commands and the new mode of `setMode`. -/
theorem setMode_eq_emit (d : Driver) (m : Nat) :
    setMode d m
      = emit { d with mode := m }
          ((MAX7219_REG_DECODE % 256, m % 256) :: clearCmds { d with mode := m }) := by
  unfold setMode
  simp only [clear_eq_emit, sendCommand_eq_emit, emit_emit]
  rfl

/-- C14: for each of the two modes `m`, hardware-decode `0xFF` and software
`0x00`, and every prior driver state with at most 8 digits: after
`setMode(m)`, `getMode()` is `m`, the commands sent are the decode-mode
command `(0x09, m)` followed by one blank write per digit register, and
every digit register `0 .. n-1` reads the blank code of the new mode (`0x0F`
for hardware-decode, `0x00` for software), whatever was on the bus before. -/
theorem C14_setMode (d : Driver) (m : Nat) (hn8 : d.numDigits ≤ 8)
    (hm : m = MAX7219_MODE_DECODE ∨ m = MAX7219_MODE_NO_DECODE) :
    getMode (setMode d m) = m ∧
    (setMode d m).bus
      = d.bus ++ (0x09, m) :: (List.range d.numDigits).map (fun i =>
          (0x01 + i, if m = MAX7219_MODE_DECODE then 0x0F else 0x00)) ∧
    (∀ p, p < d.numDigits →
      readReg (setMode d m).bus (0x01 + p)
        = some (if m = MAX7219_MODE_DECODE then 0x0F else 0x00)) := by
  have hm256 : m % 256 = m := by
    rcases hm with h | h <;> rw [h] <;> decide
  rw [setMode_eq_emit]
  refine ⟨rfl, ?_, ?_⟩
  · simp only [emit_bus, hm256, MAX7219_REG_DECODE]
    congr 2
    unfold clearCmds blankCode
    apply List.map_congr_left
    intro i hi
    have hi' : i < d.numDigits := by simpa using hi
    simp only [MAX7219_REG_DIGIT0]
    congr 1
    omega
  · intro p hp
    have := readReg_clearCmds (d.bus ++ [(MAX7219_REG_DECODE % 256, m % 256)])
      { d with mode := m } p hn8 hp
    simpa [blankCode, MAX7219_REG_DIGIT0] using this

/-- C14, witness: on the 4-digit display of the constructor, after a number
was shown, `setMode(0x00)` sends the decode-mode command and four blank
writes, and register `0x01` reads `0x00`. -/
theorem C14_setMode_witness :
    getMode (setMode (display (new 2 3 4 4) 1234) MAX7219_MODE_NO_DECODE) = 0x00 ∧
    (setMode (display (new 2 3 4 4) 1234) MAX7219_MODE_NO_DECODE).bus
      = (display (new 2 3 4 4) 1234).bus ++ [(0x09, 0x00), (1, 0), (2, 0), (3, 0), (4, 0)] ∧
    readReg (setMode (display (new 2 3 4 4) 1234) MAX7219_MODE_NO_DECODE).bus 0x01
      = some 0x00 := by
  have h := C14_setMode (display (new 2 3 4 4) 1234) MAX7219_MODE_NO_DECODE (by decide)
    (Or.inr rfl)
  exact ⟨h.1, h.2.1, h.2.2 0 (by decide)⟩

/-- C15: for every driver state with at most 8 digits and every earlier bus
traffic, `clear()` twice in a row leaves every chip register and the
configuration exactly as `clear()` once does: every digit register
`0 .. n-1` reads the blank code of the current mode, and every register
that is not a digit register of the display reads what it read before. -/
theorem C15_clear_idempotent (d : Driver) (hn8 : d.numDigits ≤ 8) :
    (∀ a, readReg (clear (clear d)).bus a = readReg (clear d).bus a) ∧
    ({ clear (clear d) with bus := [] } = { clear d with bus := [] } ∧
      { clear d with bus := [] } = { d with bus := [] }) ∧
    (∀ p, p < d.numDigits →
      readReg (clear d).bus (0x01 + p)
        = some (if d.mode = MAX7219_MODE_DECODE then 0x0F else 0x00)) ∧
    (∀ a, (a = 0 ∨ d.numDigits < a) → readReg (clear d).bus a = readReg d.bus a) := by
  have hval : ∀ c ∈ clearCmds d, c.2 = blankCode d.mode := by
    intro c hc
    unfold clearCmds at hc
    obtain ⟨i, _, rfl⟩ := List.mem_map.mp hc
    rfl
  have haddr : ∀ c ∈ clearCmds d, 1 ≤ c.1 ∧ c.1 ≤ d.numDigits := by
    intro c hc
    unfold clearCmds at hc
    obtain ⟨i, hi, rfl⟩ := List.mem_map.mp hc
    have hi' : i < d.numDigits := by simpa using hi
    simp only [MAX7219_REG_DIGIT0]
    omega
  have h2 : clear (clear d) = emit d (clearCmds d ++ clearCmds d) := by
    rw [clear_eq_emit, clear_eq_emit, emit_emit]
    rfl
  refine ⟨?_, ⟨?_, ?_⟩, ?_, ?_⟩
  · intro a
    rw [h2, clear_eq_emit, emit_bus, emit_bus]
    by_cases hex : ∃ c ∈ clearCmds d, c.1 = a
    · rw [readReg_append_of_mem d.bus (clearCmds d) a (blankCode d.mode) hex
        (fun c hc _ => hval c hc)]
      apply readReg_append_of_mem
      · obtain ⟨c, hc, hca⟩ := hex
        exact ⟨c, List.mem_append_left _ hc, hca⟩
      · intro c hc _
        rcases List.mem_append.mp hc with h | h
        · exact hval c h
        · exact hval c h
    · have hne : ∀ c ∈ clearCmds d, c.1 ≠ a := fun c hc hca => hex ⟨c, hc, hca⟩
      rw [readReg_append_of_not_mem d.bus (clearCmds d) a hne]
      apply readReg_append_of_not_mem
      intro c hc
      rcases List.mem_append.mp hc with h | h
      · exact hne c h
      · exact hne c h
  · rw [h2, clear_eq_emit]
    rfl
  · rw [clear_eq_emit]
    rfl
  · intro p hp
    rw [clear_eq_emit, emit_bus]
    exact readReg_clearCmds d.bus d p hn8 hp
  · intro a ha
    rw [clear_eq_emit, emit_bus]
    apply readReg_append_of_not_mem
    intro c hc hca
    have := haddr c hc
    omega

/-- C15, witness: on the 4-digit display of the constructor after `1234` was
shown, register `0x01` reads the blank code `0x0F` after one `clear()` and
after two. -/
theorem C15_clear_idempotent_witness :
    readReg (clear (clear (display (new 2 3 4 4) 1234))).bus 0x01 = some 0x0F ∧
    readReg (clear (display (new 2 3 4 4) 1234)).bus 0x01 = some 0x0F := by
  have h := C15_clear_idempotent (display (new 2 3 4 4) 1234) (by decide)
  have h1 := h.2.2.1 0 (by decide)
  have h0 := h.1 0x01
  constructor
  · rw [h0]
    exact h1
  · exact h1

/-- C16: spec-modelled clamping of the configuration inputs.  The
constructor stores the digit count `min(max(d, 1), 8)` for every `d`, so that
20 gives 8 and 0 gives 1; `setBrightness(level)` stores `min(level, 15)`, so
that 20 and 255 give 15, and sends exactly one command, the intensity
command `(0x0A, min(level, 15))`, leaving the rest of the configuration as
it was. -/
theorem C16_clamping (dinPin clkPin csPin numDigits : Nat) (d : Driver) (level : Nat) :
    (new dinPin clkPin csPin numDigits).numDigits = min (max numDigits 1) 8 ∧
    (new dinPin clkPin csPin 20).numDigits = 8 ∧
    (new dinPin clkPin csPin 0).numDigits = 1 ∧
    (setBrightness d level).brightness = min level 15 ∧
    (setBrightness d 20).brightness = 15 ∧
    (setBrightness d 255).brightness = 15 ∧
    (setBrightness d level).bus = d.bus ++ [(0x0A, min level 15)] ∧
    setBrightness d level
      = { d with brightness := min level 15, bus := d.bus ++ [(0x0A, min level 15)] } := by
  have hc : constrain level 0 15 = min level 15 := constrain_zero level 15
  have hmod : min level 15 % 256 = min level 15 := by omega
  have hset : setBrightness d level
      = { d with brightness := min level 15, bus := d.bus ++ [(0x0A, min level 15)] } := by
    unfold setBrightness sendCommand
    simp only [hc, hmod, MAX7219_REG_INTENSITY]
  refine ⟨?_, ?_, ?_, ?_, ?_, ?_, ?_, hset⟩
  · unfold new constrain
    simp only
    split_ifs <;> omega
  · rfl
  · rfl
  · rw [hset]
  · rfl
  · rfl
  · rw [hset]

/-! ## Hexadecimal rendering and the mode -/

/-- The inner blanking loop of `displayHex` only sends commands. -/
theorem hexBlank_emit (l : List Nat) : ∀ (d : Driver), ∃ cmds,
    l.foldl
      (fun (s : Driver) (j : Nat) =>
        sendCommand s (MAX7219_REG_DIGIT0 + getPhysicalPosition s (toUint8 (j : Int)))
          SEGMENT_BLANK)
      d = emit d cmds := by
  induction l with
  | nil => intro d; exact ⟨[], by simp⟩
  | cons j l ih =>
    intro d
    rw [List.foldl_cons, sendCommand_eq_emit]
    obtain ⟨cmds, h⟩ := ih (emit d [((MAX7219_REG_DIGIT0 +
      getPhysicalPosition d (toUint8 (j : Int))) % 256, SEGMENT_BLANK % 256)])
    exact ⟨_, by rw [h, emit_emit]⟩

/-- The loop of `displayHex` only sends commands: the configuration, the mode
included, is the one it started with. -/
theorem hexLoop_emit (i : Nat) : ∀ (d : Driver) (value : Nat), ∃ cmds,
    hexLoop i d value = emit d cmds := by
  induction i with
  | zero => intro d value; exact ⟨[], by simp [hexLoop]⟩
  | succ i ih =>
    intro d value
    unfold hexLoop
    simp only [sendCommand_eq_emit]
    by_cases hdig : value &&& 0xF < 10
    · simp only [if_pos hdig]
      split_ifs with hz
      · obtain ⟨cmds, h⟩ := hexBlank_emit (List.range i).reverse
          (emit d [((MAX7219_REG_DIGIT0 + getPhysicalPosition d (toUint8 (i : Int))) % 256,
            SEGMENT_DIGITS.getD (value &&& 0xF) 0 % 256)])
        simp only [sendCommand_eq_emit] at h
        exact ⟨_, by rw [h, emit_emit]⟩
      · obtain ⟨cmds, h⟩ := ih
          (emit d [((MAX7219_REG_DIGIT0 + getPhysicalPosition d (toUint8 (i : Int))) % 256,
            SEGMENT_DIGITS.getD (value &&& 0xF) 0 % 256)]) (value >>> 4)
        exact ⟨_, by rw [h, emit_emit]⟩
    · simp only [if_neg hdig]
      split_ifs with hz
      · obtain ⟨cmds, h⟩ := hexBlank_emit (List.range i).reverse
          (emit d [((MAX7219_REG_DIGIT0 + getPhysicalPosition d (toUint8 (i : Int))) % 256,
            SEGMENT_HEX.getD ((value &&& 0xF) - 10) 0 % 256)])
        simp only [sendCommand_eq_emit] at h
        exact ⟨_, by rw [h, emit_emit]⟩
      · obtain ⟨cmds, h⟩ := ih
          (emit d [((MAX7219_REG_DIGIT0 + getPhysicalPosition d (toUint8 (i : Int))) % 256,
            SEGMENT_HEX.getD ((value &&& 0xF) - 10) 0 % 256)]) (value >>> 4)
        exact ⟨_, by rw [h, emit_emit]⟩

/-- C13: for every value `v`: if the driver is in hardware-decode mode when
`displayHex(v)` is called, the first command sent is the decode-mode command
`(0x09, 0x00)` and `getMode()` is software mode `0x00` after the call; if the
driver is already in software mode, the mode is unchanged.  In both cases
the mode after the call is software mode. -/
theorem C13_displayHex_mode (d : Driver) (v : Nat) :
    (d.mode = MAX7219_MODE_DECODE →
      (∃ rest, (displayHex d v).bus = d.bus ++ (0x09, 0x00) :: rest) ∧
      getMode (displayHex d v) = 0x00) ∧
    (d.mode = MAX7219_MODE_NO_DECODE → getMode (displayHex d v) = d.mode) ∧
    (d.mode = MAX7219_MODE_DECODE ∨ d.mode = MAX7219_MODE_NO_DECODE →
      getMode (displayHex d v) = MAX7219_MODE_NO_DECODE) := by
  have hdec : d.mode = MAX7219_MODE_DECODE →
      (∃ rest, (displayHex d v).bus = d.bus ++ (0x09, 0x00) :: rest) ∧
      getMode (displayHex d v) = 0x00 := by
    intro hm
    unfold displayHex
    simp only [if_pos hm]
    obtain ⟨cmds, h⟩ := hexLoop_emit (setMode d MAX7219_MODE_NO_DECODE).numDigits
      (setMode d MAX7219_MODE_NO_DECODE) v
    rw [h, setMode_eq_emit, emit_emit]
    constructor
    · exact ⟨clearCmds { d with mode := MAX7219_MODE_NO_DECODE } ++ cmds, by
        simp [MAX7219_REG_DECODE, MAX7219_MODE_NO_DECODE]⟩
    · rfl
  have hsoft : d.mode ≠ MAX7219_MODE_DECODE → getMode (displayHex d v) = d.mode := by
    intro hm
    unfold displayHex
    simp only [if_neg hm]
    obtain ⟨cmds, h⟩ := hexLoop_emit d.numDigits d v
    rw [h]
    rfl
  refine ⟨hdec, ?_, ?_⟩
  · intro hm
    exact hsoft (by rw [hm]; decide)
  · rintro (hm | hm)
    · exact (hdec hm).2
    · rw [hsoft (by rw [hm]; decide), hm]

/-- C13, witness: on the display of the constructor, which is in
hardware-decode mode, `displayHex(0x1A)` first sends `(0x09, 0x00)` and
leaves the driver in software mode. -/
theorem C13_displayHex_mode_witness :
    (∃ rest, (displayHex (new 2 3 4 8) 0x1A).bus
      = (new 2 3 4 8).bus ++ (0x09, 0x00) :: rest) ∧
    getMode (displayHex (new 2 3 4 8) 0x1A) = 0x00 :=
  (C13_displayHex_mode (new 2 3 4 8) 0x1A).1 rfl

/-! ## The frame of `sendCommand` at pin level -/

/-- The level written to the data line for bit `i` of `data`. -/
theorem sendBit_level (data i : Nat) :
    (if (data >>> i) &&& 0x01 ≠ 0 then HIGH else LOW) = data.testBit i := by
  rw [Nat.testBit_to_div_mod, Nat.and_one_is_mod, Nat.shiftRight_eq_div_pow]
  unfold HIGH LOW
  by_cases h : data / 2 ^ i % 2 = 1
  · simp [h]
  · have h0 : data / 2 ^ i % 2 = 0 := by omega
    simp [h0]

theorem pulses_append (d : Driver) (bs cs : List Bool) :
    pulses d (bs ++ cs) = pulses d bs ++ pulses d cs := by
  induction bs with
  | nil => rfl
  | cons b bs ih =>
    show pulses d (b :: (bs ++ cs)) = pulses d (b :: bs) ++ pulses d cs
    rw [pulses, pulses, ih]
    simp only [List.append_assoc]

/-- The pin calls of `sendByte`: the eight bits, most significant first. -/
theorem sendByte_eq_pulses (d : Driver) (data : Nat) :
    sendByte d data = pulses d (byteBits data) := by
  have hr : (List.range 8).reverse = [7, 6, 5, 4, 3, 2, 1, 0] := by decide
  unfold sendByte byteBits
  rw [hr]
  simp only [List.foldl_cons, List.foldl_nil, sendBit, sendBit_level, pulses,
    List.nil_append, List.append_assoc, List.cons_append, List.append_nil]

theorem bits_sum (x : Nat) :
    2 * (2 * (2 * (2 * (2 * (2 * (2 * (2 * 0 + x / 128 % 2) + x / 64 % 2) + x / 32 % 2)
      + x / 16 % 2) + x / 8 % 2) + x / 4 % 2) + x / 2 % 2) + x % 2 = x % 256 := by
  omega

/-- Reassembling the bits of a byte gives the byte back. -/
theorem fromBits_byteBits (x : Nat) : fromBits (byteBits x) = x % 256 := by
  have e : ∀ i, (if x.testBit i = true then 1 else 0) = x / 2 ^ i % 2 := by
    intro i
    rw [Nat.testBit_to_div_mod]
    by_cases h : x / 2 ^ i % 2 = 1
    · simp [h]
    · have h0 : x / 2 ^ i % 2 = 0 := by omega
      simp [h0]
  unfold fromBits byteBits
  simp only [List.foldl_cons, List.foldl_nil, e]
  have key := bits_sum x
  norm_num at key ⊢
  exact key

/-- The chip side samples exactly the bits that were clocked out, when the
clock pin is neither the data pin nor the select pin. -/
theorem clockedBits_pulses (d : Driver) (hcd : d.clkPin ≠ d.dinPin) (hcs : d.clkPin ≠ d.csPin)
    (bits : List Bool) : ∀ (din : Bool),
    clockedBits d din false (pulses d bits ++
      [PinEvent.delayMicroseconds 1, PinEvent.digitalWrite d.csPin HIGH,
       PinEvent.delayMicroseconds 1]) = bits := by
  have hdc : ¬ d.dinPin = d.clkPin := fun h => hcd h.symm
  have hsc : ¬ d.csPin = d.clkPin := fun h => hcs h.symm
  induction bits with
  | nil =>
    intro din
    simp only [pulses, List.nil_append, clockedBits, if_neg hsc]
    split_ifs <;> rfl
  | cons b bs ih =>
    intro din
    have step : clockedBits d din false (pulses d (b :: bs) ++
        [PinEvent.delayMicroseconds 1, PinEvent.digitalWrite d.csPin HIGH,
         PinEvent.delayMicroseconds 1])
        = b :: clockedBits d b false (pulses d bs ++
        [PinEvent.delayMicroseconds 1, PinEvent.digitalWrite d.csPin HIGH,
         PinEvent.delayMicroseconds 1]) := by
      rw [pulses]
      simp only [List.cons_append, List.nil_append, List.append_eq, clockedBits, if_neg hdc,
        if_true, HIGH, LOW, and_self, Bool.false_eq_true, false_and, if_false]
    rw [step, ih b]

/-- The select-line write that opens a frame leaves the clock line alone. -/
theorem clockedBits_select (d : Driver) (hcs : d.clkPin ≠ d.csPin) (din : Bool)
    (rest : List PinEvent) : ∃ din',
    clockedBits d din false
      (PinEvent.digitalWrite d.csPin LOW :: PinEvent.delayMicroseconds 1 :: rest)
      = clockedBits d din' false rest := by
  have hsc : ¬ d.csPin = d.clkPin := fun h => hcs h.symm
  by_cases hsd : d.csPin = d.dinPin
  · exact ⟨LOW, by simp only [clockedBits, if_neg hsc, if_pos hsd]⟩
  · exact ⟨din, by simp only [clockedBits, if_neg hsc, if_neg hsd]⟩

/-- C20: for every address `a` and data `x`, `sendCommand(a, x)` drives the
select line low, then clocks out exactly 16 bits, each by setting the data
line and pulsing the clock line high then low, namely bits `7 .. 0` of `a`
followed by bits `7 .. 0` of `x`, and then drives the select line high.
Reassembling the bits most significant first gives `a` and `x` back for
8-bit values, which is the pair that `sendCommand` records on the bus; and a
chip that samples the data line at the rising clock edges reads these 16
bits, when the clock pin is not also the data or the select pin. -/
theorem C20_sendCommand_frame (d : Driver) (a x : Nat) :
    sendCommandPins d a x
      = [PinEvent.digitalWrite d.csPin LOW, PinEvent.delayMicroseconds 1]
        ++ pulses d (byteBits a ++ byteBits x)
        ++ [PinEvent.delayMicroseconds 1, PinEvent.digitalWrite d.csPin HIGH,
            PinEvent.delayMicroseconds 1] ∧
    (byteBits a ++ byteBits x).length = 16 ∧
    fromBits (byteBits a) = a % 256 ∧
    fromBits (byteBits x) = x % 256 ∧
    (a < 256 → x < 256 → (fromBits (byteBits a), fromBits (byteBits x)) = (a, x)) ∧
    (sendCommand d a x).bus = d.bus ++ [(fromBits (byteBits a), fromBits (byteBits x))] ∧
    (d.clkPin ≠ d.dinPin → d.clkPin ≠ d.csPin → ∀ din,
      clockedBits d din false (sendCommandPins d a x) = byteBits a ++ byteBits x) := by
  have hframe : sendCommandPins d a x
      = [PinEvent.digitalWrite d.csPin LOW, PinEvent.delayMicroseconds 1]
        ++ pulses d (byteBits a ++ byteBits x)
        ++ [PinEvent.delayMicroseconds 1, PinEvent.digitalWrite d.csPin HIGH,
            PinEvent.delayMicroseconds 1] := by
    unfold sendCommandPins
    rw [sendByte_eq_pulses, sendByte_eq_pulses, pulses_append]
    simp only [List.append_assoc]
  refine ⟨hframe, rfl, fromBits_byteBits a, fromBits_byteBits x, ?_, ?_, ?_⟩
  · intro ha hx
    rw [fromBits_byteBits, fromBits_byteBits, Nat.mod_eq_of_lt ha, Nat.mod_eq_of_lt hx]
  · rw [fromBits_byteBits, fromBits_byteBits]
    rfl
  · intro hcd hcs din
    rw [hframe]
    obtain ⟨din', h⟩ := clockedBits_select d hcs din
      (pulses d (byteBits a ++ byteBits x)
        ++ [PinEvent.delayMicroseconds 1, PinEvent.digitalWrite d.csPin HIGH,
            PinEvent.delayMicroseconds 1])
    rw [List.append_assoc]
    exact h.trans (clockedBits_pulses d hcd hcs _ din')

/-- C20, witness: with the pins 2, 3, 4 of the constructor, the frame of
`sendCommand(0x0A, 0x08)` is sampled by the chip as the 16 bits
`0000 1010 0000 1000`, which reassemble to the pair `(0x0A, 0x08)`. -/
theorem C20_sendCommand_frame_witness :
    clockedBits (new 2 3 4 8) false false (sendCommandPins (new 2 3 4 8) 0x0A 0x08)
      = [false, false, false, false, true, false, true, false,
         false, false, false, false, true, false, false, false] ∧
    (fromBits (byteBits 0x0A), fromBits (byteBits 0x08)) = (0x0A, 0x08) := by
  have h := C20_sendCommand_frame (new 2 3 4 8) 0x0A 0x08
  refine ⟨?_, h.2.2.2.2.1 (by decide) (by decide)⟩
  rw [h.2.2.2.2.2.2 (by decide) (by decide) false]
  decide

/-! ## Initialisation -/

/-- The commands and the new mode of `begin`. -/
theorem begin_eq_emit (d : Driver) (m : Nat) :
    begin d m
      = emit { d with mode := m }
          ([(MAX7219_REG_SHUTDOWN % 256, 0x01 % 256),
            (MAX7219_REG_SCANLIMIT % 256, toUint8 ((d.numDigits : Int) - 1) % 256),
            (MAX7219_REG_DECODE % 256, m % 256),
            (MAX7219_REG_INTENSITY % 256, d.brightness % 256),
            (MAX7219_REG_DISPLAYTEST % 256, 0x00 % 256)]
           ++ clearCmds { d with mode := m }) := by
  unfold begin delay
  simp only [clear_eq_emit, sendCommand_eq_emit, emit_emit]
  rfl

/-- C21: for every digit count `n` in `1 .. 8`, every 8-bit brightness `b`
and mode `m`, `begin(m)` stores `m` as the mode and sends, in this order,
the commands shutdown `(0x0C, 0x01)`, scan-limit `(0x0B, n - 1)`, decode-mode
`(0x09, m)`, intensity `(0x0A, b)`, display-test `(0x0F, 0x00)`, followed by
one blank write, with the blank code of `m`, to each digit register
`0 .. n-1`, and nothing else. -/
theorem C21_begin (d : Driver) (m : Nat) (hn1 : 1 ≤ d.numDigits) (hn8 : d.numDigits ≤ 8)
    (hb : d.brightness < 256) (hm : m < 256) :
    getMode (begin d m) = m ∧
    (begin d m).bus
      = d.bus ++ [(0x0C, 0x01), (0x0B, d.numDigits - 1), (0x09, m), (0x0A, d.brightness),
                  (0x0F, 0x00)]
          ++ (List.range d.numDigits).map (fun i =>
              (0x01 + i, if m = MAX7219_MODE_DECODE then 0x0F else 0x00)) := by
  rw [begin_eq_emit]
  refine ⟨rfl, ?_⟩
  have hscan : toUint8 ((d.numDigits : Int) - 1) % 256 = d.numDigits - 1 := by
    unfold toUint8
    omega
  have hclear : clearCmds { d with mode := m }
      = (List.range d.numDigits).map (fun i =>
          (0x01 + i, if m = MAX7219_MODE_DECODE then 0x0F else 0x00)) := by
    unfold clearCmds blankCode
    apply List.map_congr_left
    intro i hi
    have hi' : i < d.numDigits := by simpa using hi
    simp only [MAX7219_REG_DIGIT0]
    congr 1
    omega
  simp only [emit_bus, hscan, hclear, Nat.mod_eq_of_lt hb, Nat.mod_eq_of_lt hm,
    MAX7219_REG_SHUTDOWN, MAX7219_REG_SCANLIMIT, MAX7219_REG_DECODE, MAX7219_REG_INTENSITY,
    MAX7219_REG_DISPLAYTEST, List.append_assoc]

/-- C21, witness: `begin(0x00)` on the 4-digit display of the constructor
sends the five configuration commands and four blank writes. -/
theorem C21_begin_witness :
    getMode (begin (new 2 3 4 4) 0x00) = 0x00 ∧
    (begin (new 2 3 4 4) 0x00).bus
      = [(0x0C, 0x01), (0x0B, 3), (0x09, 0x00), (0x0A, 8), (0x0F, 0x00),
         (1, 0), (2, 0), (3, 0), (4, 0)] :=
  C21_begin (new 2 3 4 4) 0x00 (by decide) (by decide) (by decide) (by decide)

/-! ## Fading -/

/-- The stored brightness and the command of `setBrightness`. -/
theorem setBrightness_eq (d : Driver) (level : Nat) :
    setBrightness d level
      = { d with brightness := min level 15, bus := d.bus ++ [(0x0A, min level 15)] } := by
  have hc : constrain level 0 15 = min level 15 := constrain_zero level 15
  have hmod : min level 15 % 256 = min level 15 := by omega
  unfold setBrightness sendCommand
  simp only [hc, hmod, MAX7219_REG_INTENSITY]

/-- A run of `setBrightness` calls with levels up to 15 sends one intensity
command per level. -/
theorem foldl_setBrightness_bus (l : List Nat) : ∀ (d : Driver), (∀ x ∈ l, x ≤ 15) →
    (l.foldl (fun (s : Driver) (x : Nat) => setBrightness s x) d).bus
      = d.bus ++ l.map (fun x => (0x0A, x)) := by
  induction l with
  | nil => intro d _; simp
  | cons x l ih =>
    intro d h
    rw [List.foldl_cons, ih _ (fun y hy => h y (by simp [hy])), setBrightness_eq]
    have hx : min x 15 = x := by
      have := h x (by simp)
      omega
    simp [hx]

/-- The loop of `fadeIn` returns after the levels `b .. 15`. -/
theorem fadeInLoop_returns (delayMs : Nat) (c : Nat) : ∀ (b : Nat) (d : Driver) (fuel : Nat),
    b + c = 16 → c ≤ fuel →
    fadeInLoop fuel d b delayMs
      = some ((List.range' b c).foldl (fun (s : Driver) (x : Nat) => setBrightness s x) d) := by
  induction c with
  | zero =>
    intro b d fuel hb _
    have hb' : ¬ b ≤ 15 := by omega
    cases fuel <;> simp [fadeInLoop, hb']
  | succ c ih =>
    intro b d fuel hb hf
    obtain ⟨f, rfl⟩ : ∃ f, fuel = f + 1 := ⟨fuel - 1, by omega⟩
    have hb' : b ≤ 15 := by omega
    have hmod : (b + 1) % 256 = b + 1 := by omega
    rw [fadeInLoop, if_pos hb', hmod, ih (b + 1) _ f (by omega) (by omega)]
    rfl

/-- The loop of `fadeOut` returns after the levels `c - 1 .. 0`. -/
theorem fadeOutLoop_returns (delayMs : Nat) (c : Nat) : ∀ (d : Driver) (fuel : Nat),
    c ≤ 256 → c ≤ fuel →
    fadeOutLoop fuel d ((c : Int) - 1) delayMs
      = some ((List.range c).reverse.foldl
          (fun (s : Driver) (x : Nat) => setBrightness s x) d) := by
  induction c with
  | zero =>
    intro d fuel _ _
    cases fuel <;> simp [fadeOutLoop]
  | succ c ih =>
    intro d fuel hc hf
    obtain ⟨f, rfl⟩ : ∃ f, fuel = f + 1 := ⟨fuel - 1, by omega⟩
    have hge : ((c + 1 : Nat) : Int) - 1 ≥ 0 := by omega
    have hu : toUint8 (((c + 1 : Nat) : Int) - 1) = c := by
      unfold toUint8
      omega
    have hnext : ((c + 1 : Nat) : Int) - 1 - 1 = (c : Int) - 1 := by omega
    rw [fadeOutLoop, if_pos hge, hu, hnext, ih _ f (by omega) (by omega)]
    rw [List.range_succ, List.reverse_append]
    rfl

/-- C22: for every initial brightness `b0` in `0 .. 15`, `fadeIn` returns
after sending the intensity values `0, 1, .., 15` in order and `fadeOut`
returns after sending `b0, b0 - 1, .., 0` in order; each then sends `b0` once
more, so that the stored brightness after the call is `b0` and the last
intensity command carries `b0`.  The loops terminate: 16 iterations, and
`b0 + 1` iterations, are enough. -/
theorem C22_fade (d : Driver) (delayMs : Nat) (hb : d.brightness ≤ 15) :
    (∀ fuel, 16 ≤ fuel → ∃ d', fadeIn fuel d delayMs = some d' ∧
      d'.bus = d.bus ++ (List.range 16).map (fun b => (0x0A, b)) ++ [(0x0A, d.brightness)] ∧
      d'.brightness = d.brightness) ∧
    (∀ fuel, d.brightness + 1 ≤ fuel → ∃ d', fadeOut fuel d delayMs = some d' ∧
      d'.bus = d.bus ++ (List.range (d.brightness + 1)).reverse.map (fun b => (0x0A, b))
        ++ [(0x0A, d.brightness)] ∧
      d'.brightness = d.brightness) := by
  have hmin : min d.brightness 15 = d.brightness := by omega
  constructor
  · intro fuel hf
    unfold fadeIn
    rw [fadeInLoop_returns delayMs 16 0 d fuel (by omega) hf]
    refine ⟨_, rfl, ?_, ?_⟩
    · rw [setBrightness_eq]
      simp only [hmin]
      rw [foldl_setBrightness_bus _ d (by
        intro x hx
        have := List.mem_range'.mp hx
        omega)]
      rw [List.range_eq_range']
    · rw [setBrightness_eq]
      exact hmin
  · intro fuel hf
    unfold fadeOut
    have h := fadeOutLoop_returns delayMs (d.brightness + 1) d fuel (by omega) hf
    have hcast : ((d.brightness + 1 : Nat) : Int) - 1 = (d.brightness : Int) := by omega
    rw [hcast] at h
    rw [h]
    refine ⟨_, rfl, ?_, ?_⟩
    · rw [setBrightness_eq]
      simp only [hmin]
      rw [foldl_setBrightness_bus _ d (by
        intro x hx
        have : x < d.brightness + 1 := by simpa using hx
        omega)]
    · rw [setBrightness_eq]
      exact hmin

/-- C22, witness: from the brightness 8 of the constructor, `fadeOut` with 9
iterations allowed returns with the commands `8, 7, .., 0` and then `8`, and
the stored brightness 8. -/
theorem C22_fade_witness :
    ∃ d', fadeOut 9 (new 2 3 4 4) 50 = some d' ∧
      d'.bus = [(0x0A, 8), (0x0A, 7), (0x0A, 6), (0x0A, 5), (0x0A, 4), (0x0A, 3), (0x0A, 2),
                (0x0A, 1), (0x0A, 0), (0x0A, 8)] ∧
      d'.brightness = 8 :=
  (C22_fade (new 2 3 4 4) 50 (by decide)).2 9 (by decide)

/-! ## Scrolling and the alignment -/

/-- Two alignment settings that are both right or both not right give the
same position mapping. -/
theorem getPhysicalPosition_setAlignment (d : Driver) (a p : Nat)
    (h : d.alignment = MAX7219_ALIGN_RIGHT ↔ a = MAX7219_ALIGN_RIGHT) :
    getPhysicalPosition (setAlignment d a) p = getPhysicalPosition d p := by
  unfold getPhysicalPosition setAlignment
  simp only
  by_cases hr : d.alignment = MAX7219_ALIGN_RIGHT
  · have ha : a = MAX7219_ALIGN_RIGHT := h.mp hr
    have hl : ¬ d.alignment = MAX7219_ALIGN_LEFT := by rw [hr]; decide
    have hl' : ¬ a = MAX7219_ALIGN_LEFT := by rw [ha]; decide
    rw [if_neg hl', if_pos ha, if_neg hl, if_pos hr]
  · have ha : ¬ a = MAX7219_ALIGN_RIGHT := fun e => hr (h.mpr e)
    simp only [if_neg hr, if_neg ha, ite_self]

theorem setAlignment_emit (d : Driver) (a : Nat) (cs : List (Nat × Nat)) :
    setAlignment (emit d cs) a = emit (setAlignment d a) cs := rfl

theorem clear_setAlignment (d : Driver) (a : Nat) :
    clear (setAlignment d a) = setAlignment (clear d) a := by
  rw [clear_eq_emit, clear_eq_emit, setAlignment_emit]
  rfl

theorem clear_alignment (d : Driver) : (clear d).alignment = d.alignment := by
  rw [clear_eq_emit]
  rfl

theorem displayAtChar_alignment (d : Driver) (p c : Nat) (dp : Bool) :
    (displayAtChar d p c dp).alignment = d.alignment := by
  unfold displayAtChar
  simp only [sendCommand_eq_emit]
  split_ifs <;> rfl

theorem displayAtChar_setAlignment (d : Driver) (a p c : Nat) (dp : Bool)
    (h : d.alignment = MAX7219_ALIGN_RIGHT ↔ a = MAX7219_ALIGN_RIGHT) :
    displayAtChar (setAlignment d a) p c dp = setAlignment (displayAtChar d p c dp) a := by
  unfold displayAtChar
  simp only [sendCommand_eq_emit, getPhysicalPosition_setAlignment d a p h]
  have hn : (setAlignment d a).numDigits = d.numDigits := rfl
  have hm : (setAlignment d a).mode = d.mode := rfl
  simp only [hn, hm]
  split_ifs <;> rfl

/-- The inner loop of `scroll` under two alignment settings with the same
position mapping. -/
theorem scrollFrame_setAlignment (text : List Nat) (offset : Int) (a : Nat) (l : List Nat) :
    ∀ (d : Driver), (d.alignment = MAX7219_ALIGN_RIGHT ↔ a = MAX7219_ALIGN_RIGHT) →
    l.foldl
        (fun (s : Driver) (i : Nat) =>
          let pos : Int := offset + (i : Int)
          if pos ≥ 0 ∧ pos < (s.numDigits : Int) then
            displayAtChar s (toUint8 pos) (text.getD i 0) false
          else s)
        (setAlignment d a)
      = setAlignment
        (l.foldl
          (fun (s : Driver) (i : Nat) =>
            let pos : Int := offset + (i : Int)
            if pos ≥ 0 ∧ pos < (s.numDigits : Int) then
              displayAtChar s (toUint8 pos) (text.getD i 0) false
            else s)
          d) a
      ∧ (l.foldl
          (fun (s : Driver) (i : Nat) =>
            let pos : Int := offset + (i : Int)
            if pos ≥ 0 ∧ pos < (s.numDigits : Int) then
              displayAtChar s (toUint8 pos) (text.getD i 0) false
            else s)
          d).alignment = d.alignment := by
  induction l with
  | nil => intro d _; exact ⟨rfl, rfl⟩
  | cons i l ih =>
    intro d h
    simp only [List.foldl_cons]
    have hn : (setAlignment d a).numDigits = d.numDigits := rfl
    by_cases hp : offset + (i : Int) ≥ 0 ∧ offset + (i : Int) < (d.numDigits : Int)
    · simp only [hn, if_pos hp]
      rw [displayAtChar_setAlignment d a _ _ _ h]
      have h' : (displayAtChar d (toUint8 (offset + (i : Int))) (text.getD i 0) false).alignment
          = MAX7219_ALIGN_RIGHT ↔ a = MAX7219_ALIGN_RIGHT := by
        rw [displayAtChar_alignment]
        exact h
      obtain ⟨e1, e2⟩ := ih _ h'
      exact ⟨e1, by rw [e2, displayAtChar_alignment]⟩
    · simp only [hn, if_neg hp]
      exact ih d h

/-- The outer loop of `scroll` under two alignment settings with the same
position mapping. -/
theorem scrollLoop_setAlignment (text : List Nat) (delayMs a : Nat) (l : List Nat) :
    ∀ (d : Driver), (d.alignment = MAX7219_ALIGN_RIGHT ↔ a = MAX7219_ALIGN_RIGHT) →
    l.foldl
        (fun (s : Driver) (k : Nat) =>
          let offset : Int := (s.numDigits : Int) - 1 - (k : Int)
          let s := clear s
          let s := scrollFrame s text offset
          delay s delayMs)
        (setAlignment d a)
      = setAlignment
        (l.foldl
          (fun (s : Driver) (k : Nat) =>
            let offset : Int := (s.numDigits : Int) - 1 - (k : Int)
            let s := clear s
            let s := scrollFrame s text offset
            delay s delayMs)
          d) a := by
  induction l with
  | nil => intro d _; rfl
  | cons k l ih =>
    intro d h
    simp only [List.foldl_cons]
    have hn : (setAlignment d a).numDigits = d.numDigits := rfl
    have hc : (clear d).alignment = MAX7219_ALIGN_RIGHT ↔ a = MAX7219_ALIGN_RIGHT := by
      rw [clear_alignment]
      exact h
    obtain ⟨e1, e2⟩ := scrollFrame_setAlignment text ((d.numDigits : Int) - 1 - (k : Int)) a
      (List.range text.length) (clear d) hc
    have hstep : delay (scrollFrame (clear (setAlignment d a)) text
          (((setAlignment d a).numDigits : Int) - 1 - (k : Int))) delayMs
        = setAlignment (delay (scrollFrame (clear d) text
          ((d.numDigits : Int) - 1 - (k : Int))) delayMs) a := by
      unfold delay scrollFrame
      rw [hn, clear_setAlignment]
      exact e1
    rw [hstep]
    apply ih
    unfold delay scrollFrame
    rw [e2, clear_alignment]
    exact h

/-- C23, counterexample: on a 2-digit display in hardware-decode mode,
`scroll("7", 200)` sends the digit `7` first to register `0x01` and then to
register `0x02` under left alignment, and first to register `0x02` and then
to register `0x01` under right alignment: the command sequences differ. -/
theorem C23_scroll_depends_on_alignment :
    (scroll (setAlignment (new 2 3 4 2) MAX7219_ALIGN_LEFT) ['7'.toNat] 200).bus
      = [(1, 0x0F), (2, 0x0F), (1, 7), (1, 0x0F), (2, 0x0F), (2, 7), (1, 0x0F), (2, 0x0F)] ∧
    (scroll (setAlignment (new 2 3 4 2) MAX7219_ALIGN_RIGHT) ['7'.toNat] 200).bus
      = [(1, 0x0F), (2, 0x0F), (2, 7), (1, 0x0F), (2, 0x0F), (1, 7), (1, 0x0F), (2, 0x0F)] ∧
    (scroll (setAlignment (new 2 3 4 2) MAX7219_ALIGN_LEFT) ['7'.toNat] 200).bus
      ≠ (scroll (setAlignment (new 2 3 4 2) MAX7219_ALIGN_RIGHT) ['7'.toNat] 200).bus := by
  decide

/-- C23, amended: for every text, interval, digit count and decode mode, the
commands sent by `scroll(text, interval)` are the same under left and under
center alignment, and more generally under any two alignment settings that
are both right or both not right: the alignment enters only through the
position mapping of `displayAt`. -/
theorem C23_scroll_left_center (d : Driver) (text : List Nat) (delayMs : Nat) :
    (scroll (setAlignment d MAX7219_ALIGN_LEFT) text delayMs).bus
      = (scroll (setAlignment d MAX7219_ALIGN_CENTER) text delayMs).bus ∧
    (∀ a1 a2, (a1 = MAX7219_ALIGN_RIGHT ↔ a2 = MAX7219_ALIGN_RIGHT) →
      (scroll (setAlignment d a1) text delayMs).bus
        = (scroll (setAlignment d a2) text delayMs).bus) := by
  have key : ∀ a1 a2, (a1 = MAX7219_ALIGN_RIGHT ↔ a2 = MAX7219_ALIGN_RIGHT) →
      (scroll (setAlignment d a1) text delayMs).bus
        = (scroll (setAlignment d a2) text delayMs).bus := by
    intro a1 a2 h
    have h2 : setAlignment d a2 = setAlignment (setAlignment d a1) a2 := rfl
    have hn : (setAlignment (setAlignment d a1) a2).numDigits
        = (setAlignment d a1).numDigits := rfl
    rw [h2]
    unfold scroll
    rw [hn, scrollLoop_setAlignment text delayMs a2 _ (setAlignment d a1) h]
    rfl
  exact ⟨key _ _ (by decide), key⟩

/-- C23, witness of the amended claim: the commands of `scroll("7", 200)` on
a 2-digit display are the same under left and under center alignment. -/
theorem C23_scroll_left_center_witness :
    (scroll (setAlignment (new 2 3 4 2) MAX7219_ALIGN_LEFT) ['7'.toNat] 200).bus
      = (scroll (setAlignment (new 2 3 4 2) MAX7219_ALIGN_CENTER) ['7'.toNat] 200).bus :=
  (C23_scroll_left_center (new 2 3 4 2) ['7'.toNat] 200).2 MAX7219_ALIGN_LEFT
    MAX7219_ALIGN_CENTER (by decide)

/-! ## Counting up to the ends of `long` -/

/-- The result of `toLong` is a `long`. -/
theorem toLong_range (x : Int) : -2147483648 ≤ toLong x ∧ toLong x ≤ 2147483647 := by
  unfold toLong
  omega

theorem toLong_of_range (x : Int) (h1 : -2147483648 ≤ x) (h2 : x ≤ 2147483647) :
    toLong x = x := by
  unfold toLong
  omega

/-- With `to` the largest `long`, the loop condition `i <= to` of `countUp`
never fails: no bound on the iterations is enough. -/
theorem countUpLoop_max (delayMs : Nat) (fuel : Nat) : ∀ (d : Driver) (i : Int),
    i ≤ 2147483647 → countUpLoop fuel d i 2147483647 delayMs = none := by
  induction fuel with
  | zero =>
    intro d i hi
    rw [countUpLoop, if_pos hi]
  | succ fuel ih =>
    intro d i hi
    rw [countUpLoop, if_pos hi]
    exact ih _ _ (toLong_range (i + 1)).2

/-- With `to` the smallest `long`, the loop condition `i >= to` of
`countDown` never fails. -/
theorem countDownLoop_min (delayMs : Nat) (fuel : Nat) : ∀ (d : Driver) (i : Int),
    -2147483648 ≤ i → countDownLoop fuel d i (-2147483648) delayMs = none := by
  induction fuel with
  | zero =>
    intro d i hi
    rw [countDownLoop, if_pos (ge_iff_le.mpr hi)]
  | succ fuel ih =>
    intro d i hi
    rw [countDownLoop, if_pos (ge_iff_le.mpr hi)]
    exact ih _ _ (toLong_range (i - 1)).1

/-- Below the largest `long`, `countUp` returns after rendering
`from, from + 1, .., to`, each once and in increasing order, as soon as
`to - from + 1` iterations are allowed. -/
theorem countUpLoop_returns (delayMs : Nat) (toVal : Int) (hto : toVal < 2147483647)
    (c : Nat) : ∀ (d : Driver) (i : Int) (fuel : Nat),
    -2147483648 ≤ i → i + (c : Int) = toVal + 1 → c ≤ fuel →
    countUpLoop fuel d i toVal delayMs
      = some (((List.range c).map (fun (k : Nat) => i + (k : Int))).foldl
          (fun (s : Driver) (v : Int) => display s v) d) := by
  induction c with
  | zero =>
    intro d i fuel _ hi _
    have hn : ¬ i ≤ toVal := by omega
    cases fuel <;> simp [countUpLoop, hn]
  | succ c ih =>
    intro d i fuel hlo hi hf
    obtain ⟨f, rfl⟩ : ∃ f, fuel = f + 1 := ⟨fuel - 1, by omega⟩
    have hle : i ≤ toVal := by omega
    rw [countUpLoop, if_pos hle, toLong_of_range (i + 1) (by omega) (by omega),
      ih _ (i + 1) f (by omega) (by push_cast at hi; omega) (by omega)]
    rw [List.range_succ_eq_map, List.map_cons, List.map_map, List.foldl_cons]
    have hinit : delay (display d i) delayMs = display d (i + ((0 : Nat) : Int)) := by
      simp [delay]
    have hlist : (List.range c).map (fun (k : Nat) => i + 1 + (k : Int))
        = (List.range c).map ((fun (k : Nat) => i + (k : Int)) ∘ Nat.succ) := by
      apply List.map_congr_left
      intro k _
      simp only [Function.comp, Nat.succ_eq_add_one]
      push_cast
      omega
    rw [hinit, hlist]

/-- C24: the code at the ends of `long`.  For every start value,
`countUp(from, 2147483647, interval)` does not return, however many
iterations are allowed: the loop condition `i <= to` holds for every `long`
and `i++` wraps at the largest one.  In the same way
`countDown(from, -2147483648, interval)` does not return.  Below the largest
`long` the loop of `countUp` does return. -/
theorem C24_count_to_end_of_long_never_returns (fuel : Nat) (d : Driver) (fromVal : Int)
    (delayMs : Nat) :
    (fromVal ≤ 2147483647 → countUp fuel d fromVal 2147483647 delayMs = none) ∧
    (-2147483648 ≤ fromVal → countDown fuel d fromVal (-2147483648) delayMs = none) ∧
    countUp 2 d 2147483645 2147483646 delayMs
      = some (display (display d 2147483645) 2147483646) := by
  refine ⟨?_, ?_, ?_⟩
  · intro h
    unfold countUp
    rw [if_neg (by omega)]
    exact countUpLoop_max delayMs fuel d fromVal h
  · intro h
    unfold countDown
    rw [if_neg (by omega)]
    exact countDownLoop_min delayMs fuel d fromVal h
  · unfold countUp
    rw [if_neg (by decide)]
    rw [countUpLoop_returns delayMs 2147483646 (by decide) 2 d 2147483645 2 (by decide)
      (by decide) (by decide)]
    rfl

/-- C24, witness: `countUp(2147483646, 2147483647, 100)` has not returned
after a thousand iterations, nor has `countDown(-2147483647, -2147483648, 100)`. -/
theorem C24_count_to_end_of_long_never_returns_witness :
    countUp 1000 (new 2 3 4 8) 2147483646 2147483647 100 = none ∧
    countDown 1000 (new 2 3 4 8) (-2147483647) (-2147483648) 100 = none :=
  ⟨(C24_count_to_end_of_long_never_returns 1000 (new 2 3 4 8) 2147483646 100).1 (by decide),
   (C24_count_to_end_of_long_never_returns 1000 (new 2 3 4 8) (-2147483647) 100).2.1
     (by decide)⟩

/-! ## The leading-zero branch of integer rendering -/

/-- C25: the code at `display(100000005)` on a 4-digit display.  The eight
collected digits are `0000 0005`; the seven leading zeros take the branch
that writes the blank code without the bounds test of `displayAt`.  Under
right alignment it writes to the digit registers `0x08 .. 0x05`, beyond the
digit count 4; under left alignment it writes to the addresses `0x00`, `0xFF`
and `0xFE`, which are no digit registers, because `_numDigits - 1 - pos`
wraps as a `uint8_t`. -/
theorem C25_leading_zero_branch_writes_outside_display :
    (display (new 2 3 4 4) 100000005).bus
      = [(1, 0x0F), (2, 0x0F), (3, 0x0F), (4, 0x0F),
         (8, 0x0F), (7, 0x0F), (6, 0x0F), (5, 0x0F), (4, 0x0F), (3, 0x0F), (2, 0x0F),
         (1, 5)] ∧
    (display (setAlignment (new 2 3 4 4) MAX7219_ALIGN_LEFT) 100000005).bus
      = [(1, 0x0F), (2, 0x0F), (3, 0x0F), (4, 0x0F),
         (4, 0x0F), (3, 0x0F), (2, 0x0F), (1, 0x0F), (0x00, 0x0F), (0xFF, 0x0F),
         (0xFE, 0x0F)] ∧
    ¬ (∀ c ∈ (display (new 2 3 4 4) 100000005).bus, ∃ p, p < 4 ∧ c.1 = 0x01 + p) := by
  decide

end MAX7219
